import Mathlib

/-!
Verification development for the question-extraction / answer-formatting
pipeline of the `mids-answer-generator` repository.

The Python sources are shallowly embedded over `List Char`:

* `utils/pdf_processor.py` : `extract_questions` / `_parse_questions` /
  `_chunk_content`;
* `utils/ai_generator.py` : `_parse_multi_question_response` and the retry
  loop of `generate_multi_question_answer`;
* `utils/pdf_compiler.py` : `_format_answer_text` with its section
  classifiers and `_enhance_text_formatting`.

Python string semantics (`str.strip`, `str.lower`, `str.split`, the concrete
regular expressions used by the source, each hand-compiled to a scanner) are
modelled for ASCII data; `\s` is the ASCII whitespace class.  Regex character
classes such as `.` never have to exclude a newline here because every
scanned unit is a single line.
-/

namespace MidsGen

/-- ASCII whitespace, the characters Python's `str.strip()` and the regex
class `\s` treat as whitespace on ASCII data. -/
def pyWs (c : Char) : Bool :=
  c = ' ' || c = '\t' || c = '\n' || c = '\r' || c = Char.ofNat 11 || c = Char.ofNat 12

/-- Python `str.lower()` on an ASCII character. -/
def pyLower (c : Char) : Char :=
  if c.isUpper then Char.ofNat (c.toNat + 32) else c

/-- An ASCII letter (`[A-Za-z]`; the source always compiles `[A-Z]` together
with `re.IGNORECASE`). -/
def asciiLetter (c : Char) : Bool :=
  c.isUpper || c.isLower

/-- Python `str.lstrip()`. -/
def pyStripLeft (s : List Char) : List Char :=
  s.dropWhile pyWs

/-- Python `str.strip()`. -/
def pyStrip (s : List Char) : List Char :=
  ((s.dropWhile pyWs).reverse.dropWhile pyWs).reverse

/-- Python `text.split('\n')`: every newline separates, empty pieces kept. -/
def splitNl : List Char → List (List Char)
  | [] => [[]]
  | c :: rest =>
    match splitNl rest with
    | [] => [[c]]
    | h :: t => if c = '\n' then [] :: h :: t else (c :: h) :: t

/-- Substring test, Python's `sub in s` for a fixed pattern. -/
def containsSub (pat : List Char) : List Char → Bool
  | [] => pat.isEmpty
  | c :: rest => pat.isPrefixOf (c :: rest) || containsSub pat rest

/-- Case-insensitive prefix test (both sides lowered), for patterns compiled
with `re.IGNORECASE`. -/
def leadsWithCI (pat s : List Char) : Bool :=
  (pat.map pyLower).isPrefixOf (s.map pyLower)

/-- One step of `re.sub(r'\s+', ' ', q)`: the flag records whether the
previous character was whitespace (so the run was already emitted as one
space). -/
def collapseWsAux : Bool → List Char → List Char
  | _, [] => []
  | inWs, c :: rest =>
    if pyWs c then
      if inWs then collapseWsAux true rest else ' ' :: collapseWsAux true rest
    else c :: collapseWsAux false rest

/-- `re.sub(r'\s+', ' ', q).strip()` — the cleanup applied to every parsed
question before filtering (pdf_processor.py line 235). -/
def cleanWs (s : List Char) : List Char :=
  pyStrip (collapseWsAux false s)

/-!
### Question-start patterns (`enhanced_patterns`, pdf_processor.py 175-187)

Each Python regex is hand-compiled to a matcher returning the text captured
by its group.  All eleven patterns are anchored (`re.match`) and compiled
with `re.IGNORECASE`.
-/

/-- The tail `\s*(.+)` shared by most patterns: greedy `\s*`, then a
non-empty capture; when everything left is whitespace the `\s*` backtracks
by one character so the group is the final whitespace character. -/
def tailCapture (rest : List Char) : Option (List Char) :=
  if rest = [] then none
  else
    match rest.dropWhile pyWs with
    | [] => some [rest.getLastD ' ']
    | g => some g

/-- Pattern `^\d+\.\s*(.+)` and `^\d+\)\s*(.+)` (parameterised by the
separator character). -/
def matchNumSep (sep : Char) (l : List Char) : Option (List Char) :=
  let ds := l.takeWhile Char.isDigit
  if ds = [] then none
  else
    match l.drop ds.length with
    | c :: rest => if c = sep then tailCapture rest else none
    | [] => none

/-- Pattern `^Q\d+[\.\)]\s*(.+)` (case-insensitive `Q`). -/
def matchQNum (l : List Char) : Option (List Char) :=
  match l with
  | c :: rest =>
    if pyLower c = 'q' then
      let ds := rest.takeWhile Char.isDigit
      if ds = [] then none
      else
        match rest.drop ds.length with
        | d :: rest2 => if d = '.' || d = ')' then tailCapture rest2 else none
        | [] => none
    else none
  | [] => none

/-- Pattern `^Question\s+\d+[\.\)]\s*(.+)` (case-insensitive word). -/
def matchQuestionNum (l : List Char) : Option (List Char) :=
  let w := "question".toList
  if (l.take 8).map pyLower = w then
    let rest := l.drop 8
    let ws := rest.takeWhile pyWs
    if ws = [] then none
    else
      let rest2 := rest.drop ws.length
      let ds := rest2.takeWhile Char.isDigit
      if ds = [] then none
      else
        match rest2.drop ds.length with
        | d :: rest3 => if d = '.' || d = ')' then tailCapture rest3 else none
        | [] => none
  else none

/-- Pattern `^\(\d+\)\s*(.+)`. -/
def matchParenNum (l : List Char) : Option (List Char) :=
  match l with
  | '(' :: rest =>
    let ds := rest.takeWhile Char.isDigit
    if ds = [] then none
    else
      match rest.drop ds.length with
      | ')' :: rest2 => tailCapture rest2
      | _ => none
  | _ => none

/-- Pattern `^\d+[\.\s]*([A-Z].+)`: digits, a run of dots/whitespace, then a
letter followed by at least one more character; the greedy group runs to the
end of the line.  (Backtracking into `[\.\s]*` can never help because the
surrendered characters are not letters.) -/
def matchNumCapital (l : List Char) : Option (List Char) :=
  let ds := l.takeWhile Char.isDigit
  if ds = [] then none
  else
    let r := (l.drop ds.length).dropWhile (fun c => c = '.' || pyWs c)
    match r with
    | a :: _ :: _ => if asciiLetter a then some r else none
    | _ => none

/-- Pattern `^[A-Z]\d+[\.\)]\s*(.+)` (case-insensitive letter). -/
def matchLetterNum (l : List Char) : Option (List Char) :=
  match l with
  | c :: rest =>
    if asciiLetter c then
      let ds := rest.takeWhile Char.isDigit
      if ds = [] then none
      else
        match rest.drop ds.length with
        | d :: rest2 => if d = '.' || d = ')' then tailCapture rest2 else none
        | [] => none
    else none
  | [] => none

/-- Pattern `^\d+\s*[-–]\s*(.+)`. -/
def matchNumDash (l : List Char) : Option (List Char) :=
  let ds := l.takeWhile Char.isDigit
  if ds = [] then none
  else
    match (l.drop ds.length).dropWhile pyWs with
    | c :: rest => if c = '-' || c = '–' then tailCapture rest else none
    | [] => none

/-- Patterns `^[a-z]\)\s*(.+)` and `^[A-Z]\)\s*(.+)`: under `re.IGNORECASE`
both accept any ASCII letter, so the second can never fire first. -/
def matchLetterParen (l : List Char) : Option (List Char) :=
  match l with
  | c :: ')' :: rest => if asciiLetter c then tailCapture rest else none
  | _ => none

/-- Pattern `^\d+\s+(.{20,})`: digits, at least one whitespace, then a group
of at least 20 characters; `\s+` backtracks so trailing run whitespace can
count towards the 20. -/
def matchNumLong (l : List Char) : Option (List Char) :=
  let ds := l.takeWhile Char.isDigit
  if ds = [] then none
  else
    let rest := l.drop ds.length
    let ws := rest.takeWhile pyWs
    if ws = [] then none
    else
      let r := rest.drop ws.length
      if 20 ≤ r.length then some r
      else if 21 ≤ ws.length + r.length then
        some ((ws ++ r).drop (ws.length + r.length - 20))
      else none

/-- `for pattern in enhanced_patterns: match = re.match(pattern, line, re.IGNORECASE)`
— first match wins, returning the captured group (every pattern has one). -/
def firstCapture (l : List Char) : Option (List Char) :=
  (matchNumSep '.' l).orElse fun _ =>
  (matchNumSep ')' l).orElse fun _ =>
  (matchQNum l).orElse fun _ =>
  (matchQuestionNum l).orElse fun _ =>
  (matchParenNum l).orElse fun _ =>
  (matchNumCapital l).orElse fun _ =>
  (matchLetterNum l).orElse fun _ =>
  (matchNumDash l).orElse fun _ =>
  (matchLetterParen l).orElse fun _ =>
  (matchLetterParen l).orElse fun _ =>
  matchNumLong l

/-- The continuation guard
`^\d+[\.\)]\s*|^Q\d+[\.\)]\s*|^Question\s+\d+[\.\)]\s*|^\(\d+\)\s*`
(case-sensitive, boolean only). -/
def contMatch (l : List Char) : Bool :=
  (let ds := l.takeWhile Char.isDigit
   decide (ds ≠ []) &&
     match l.drop ds.length with
     | c :: _ => c = '.' || c = ')'
     | [] => false) ||
  (match l with
   | 'Q' :: rest =>
     let ds := rest.takeWhile Char.isDigit
     decide (ds ≠ []) &&
       match rest.drop ds.length with
       | c :: _ => c = '.' || c = ')'
       | [] => false
   | _ => false) ||
  (if "Question".toList.isPrefixOf l then
     let rest := l.drop 8
     let ws := rest.takeWhile pyWs
     decide (ws ≠ []) &&
       (let rest2 := rest.drop ws.length
        let ds := rest2.takeWhile Char.isDigit
        decide (ds ≠ []) &&
          match rest2.drop ds.length with
          | c :: _ => c = '.' || c = ')'
          | [] => false)
   else false) ||
  (match l with
   | '(' :: rest =>
     let ds := rest.takeWhile Char.isDigit
     decide (ds ≠ []) &&
       match rest.drop ds.length with
       | ')' :: _ => true
       | _ => false
   | _ => false)

/-- The accumulator scan of `_parse_questions` (pdf_processor.py 189-225):
strip each line, skip blanks, flush the accumulator on a pattern match,
append continuations unless the continuation guard fires, flush at the end. -/
def parseLoop : List (List Char) → List Char → List (List Char)
  | [], cur => if cur = [] then [] else [pyStrip cur]
  | line :: rest, cur =>
    let l := pyStrip line
    if l = [] then parseLoop rest cur
    else
      match firstCapture l with
      | some g =>
        (if cur = [] then [] else [pyStrip cur]) ++ parseLoop rest (pyStrip g)
      | none =>
        if cur ≠ [] && !contMatch l then parseLoop rest (cur ++ ' ' :: l)
        else parseLoop rest cur

/-- The pure digits/punctuation filter `^[\d\.\)\(\s\-–]+$`
(pdf_processor.py 238). -/
def inPureClass (c : Char) : Bool :=
  c.isDigit || c = '.' || c = ')' || c = '(' || pyWs c || c = '-' || c = '–'

/-- Whether a cleaned question matches the pure digits/punctuation regex. -/
def pureNum (q : List Char) : Bool :=
  decide (q ≠ []) && q.all inPureClass

/-- Skip pattern `^(page|section|chapter|unit)\s+\d+` on the lowered text. -/
def skipPageLike (q : List Char) : Bool :=
  ["page", "section", "chapter", "unit"].any fun w =>
    let wl := w.toList
    wl.isPrefixOf q &&
      (let rest := q.drop wl.length
       let ws := rest.takeWhile pyWs
       decide (ws ≠ []) &&
         match rest.drop ws.length with
         | c :: _ => c.isDigit
         | [] => false)

/-- Skip pattern `^(note|instruction|direction)s?\s*:`. -/
def skipNoteLike (q : List Char) : Bool :=
  ["note", "instruction", "direction"].any fun w =>
    let wl := w.toList
    wl.isPrefixOf q &&
      (let rest := q.drop wl.length
       (match rest with
        | 's' :: rest2 =>
          match rest2.dropWhile pyWs with
          | ':' :: _ => true
          | _ => false
        | _ => false) ||
       (match rest.dropWhile pyWs with
        | ':' :: _ => true
        | _ => false))

/-- Skip pattern `^(answer|solution|hint)\s*:`. -/
def skipAnswerLike (q : List Char) : Bool :=
  ["answer", "solution", "hint"].any fun w =>
    let wl := w.toList
    wl.isPrefixOf q &&
      (match (q.drop wl.length).dropWhile pyWs with
       | ':' :: _ => true
       | _ => false)

/-- Skip pattern `^(total|maximum|minimum)\s+marks?`. -/
def skipMarksLike (q : List Char) : Bool :=
  ["total", "maximum", "minimum"].any fun w =>
    let wl := w.toList
    wl.isPrefixOf q &&
      (let rest := q.drop wl.length
       let ws := rest.takeWhile pyWs
       decide (ws ≠ []) &&
         "mark".toList.isPrefixOf (rest.drop ws.length))

/-- Skip pattern `^(name|roll|class|date)\s*:`. -/
def skipNameLike (q : List Char) : Bool :=
  ["name", "roll", "class", "date"].any fun w =>
    let wl := w.toList
    wl.isPrefixOf q &&
      (match (q.drop wl.length).dropWhile pyWs with
       | ':' :: _ => true
       | _ => false)

/-- The `skip_patterns` loop (pdf_processor.py 242-254), applied to
`q.lower()`. -/
def anySkip (q : List Char) : Bool :=
  let low := q.map pyLower
  skipPageLike low || skipNoteLike low || skipAnswerLike low ||
    skipMarksLike low || skipNameLike low

/-- The post-filter of `_parse_questions` (pdf_processor.py 232-257): clean
whitespace, drop questions shorter than 10 characters or purely
digits/punctuation, drop administrative prefixes. -/
def cleanAndFilter (qs : List (List Char)) : List (List Char) :=
  (qs.map cleanWs).filter fun q =>
    !(q.length < 10 || pureNum q) && !anySkip q

/-- The interrogative/instructional vocabulary of the fallback pass
(pdf_processor.py 267-269). -/
def indicatorWords : List (List Char) :=
  ["what", "how", "why", "when", "where", "which", "who",
   "define", "explain", "describe", "calculate", "find",
   "solve", "prove", "derive", "analyze", "compare", "discuss"].map
    String.toList

/-- The fallback pass (pdf_processor.py 260-274): any stripped line longer
than 15 characters containing an indicator word (case-insensitive) or ending
with a question mark. -/
def fallbackPass (text : List Char) : List (List Char) :=
  (splitNl text).filterMap fun line =>
    let l := pyStrip line
    if 15 < l.length then
      if indicatorWords.any fun w => containsSub w (l.map pyLower) then some l
      else if l.getLastD ' ' = '?' then some l
      else none
    else none

/-- `_parse_questions` (pdf_processor.py 167-277). -/
def parseQuestions (text : List Char) : List (List Char) :=
  let cleaned := cleanAndFilter (parseLoop (splitNl text) [])
  if cleaned = [] then fallbackPass text else cleaned

/-- `extract_questions` (pdf_processor.py 134-142): empty or blank input
short-circuits to the empty list. -/
def extractQuestions (text : String) : List String :=
  if pyStrip text.toList = [] then []
  else (parseQuestions text.toList).map fun q => String.mk q

/-- An entry of `questions_data` (app.py 299): a question string paired with
its 1-based position in the final list. -/
structure QuestionItem where
  question : String
  question_number : Nat
  deriving Repr, DecidableEq

/-- `questions_data = [{"question": q, "question_number": i+1} for i, q in
enumerate(questions)]` (app.py 299-301). -/
def mkQuestionsData (questions : List String) : List QuestionItem :=
  questions.enum.map fun p => ⟨p.2, p.1 + 1⟩

/-- The state of a `PDFProcessor` object: the only instance field the class
initialiser creates is the `question_patterns` list of regex strings
(pdf_processor.py 14-21). -/
structure ProcessorState where
  question_patterns : List String
  deriving Repr, DecidableEq

/-- `PDFProcessor.__init__`. -/
def initProcessor : ProcessorState :=
  ⟨[ "^\\d+\\.\\s+", "^\\d+\\)\\s+", "^Q\\d+[\\.\\)]\\s+",
     "^Question\\s+\\d+[\\.\\)]\\s+", "^\\(\\d+\\)\\s+" ]⟩

/-- The method `extract_questions` as a state transformer: its body reads no
instance field (`_parse_questions` uses the local `enhanced_patterns` list,
not `self.question_patterns`) and writes none, so the translation returns
the state unchanged. -/
def extractQuestionsS (st : ProcessorState) (text : String) :
    List String × ProcessorState :=
  (extractQuestions text, st)

/-!
### Whitespace-normalised tokens

`CleanTok s` says `s` carries no leading/trailing whitespace, and every
whitespace character in it is a single space followed by a non-space: on
such strings the source's cleanup `re.sub(r'\s+', ' ', q).strip()` is the
identity.
-/

/-- Executable check that every whitespace character is a single space
followed by a non-space. -/
def wsChainB : List Char → Bool
  | [] => true
  | [_] => true
  | c :: d :: rest =>
    (!pyWs c || (decide (c = ' ') && !pyWs d)) && wsChainB (d :: rest)

/-- Whitespace-normalised character list. -/
def CleanTok (s : List Char) : Prop :=
  (∀ c ∈ s.head?, pyWs c = false) ∧ (∀ c ∈ s.getLast?, pyWs c = false) ∧
    wsChainB s = true

instance (s : List Char) : Decidable (CleanTok s) :=
  inferInstanceAs (Decidable ((∀ c ∈ s.head?, pyWs c = false) ∧
    (∀ c ∈ s.getLast?, pyWs c = false) ∧ wsChainB s = true))

theorem wsChainB_iff : ∀ s : List Char, wsChainB s = true ↔
    s.Chain' fun c d => pyWs c = true → c = ' ' ∧ pyWs d = false
  | [] => by simp [wsChainB]
  | [c] => by simp [wsChainB]
  | c :: d :: rest => by
    rw [List.chain'_cons, ← wsChainB_iff (d :: rest)]
    show ((!pyWs c || (decide (c = ' ') && !pyWs d)) && wsChainB (d :: rest)) = true ↔ _
    constructor
    · intro h
      have h1 := (Bool.and_eq_true _ _).mp h
      refine ⟨?_, h1.2⟩
      intro hws
      rcases Bool.or_eq_true_iff.mp h1.1 with h' | h'
      · rw [hws] at h'; cases h'
      · have := (Bool.and_eq_true _ _).mp h'
        exact ⟨of_decide_eq_true this.1, by simpa using this.2⟩
    · intro ⟨h1, h2⟩
      refine (Bool.and_eq_true _ _).mpr ⟨?_, h2⟩
      cases hws : pyWs c with
      | false => simp
      | true =>
        have := h1 hws
        simp [this.1, this.2]

theorem dropWhile_cons_of_neg {p : Char → Bool} {c : Char} {l : List Char}
    (h : p c = false) : (c :: l).dropWhile p = c :: l := by
  simp [List.dropWhile, h]

theorem pyStrip_eq_self {s : List Char}
    (hh : ∀ c ∈ s.head?, pyWs c = false)
    (hl : ∀ c ∈ s.getLast?, pyWs c = false) : pyStrip s = s := by
  unfold pyStrip
  cases s with
  | nil => rfl
  | cons c rest =>
    rw [dropWhile_cons_of_neg (hh c rfl)]
    have hlast : ∀ x ∈ (c :: rest).reverse.head?, pyWs x = false := by
      intro x hx
      rw [List.head?_reverse] at hx
      exact hl x hx
    cases hrev : (c :: rest).reverse with
    | nil => simp at hrev
    | cons d tail =>
      have hd : pyWs d = false := hlast d (by rw [hrev]; rfl)
      calc ((d :: tail).dropWhile pyWs).reverse
          = (d :: tail).reverse := by rw [dropWhile_cons_of_neg hd]
        _ = c :: rest := by rw [← hrev, List.reverse_reverse]

theorem pyWs_cases {c : Char} (h : pyWs c = true) :
    c = ' ' ∨ c = '\t' ∨ c = '\n' ∨ c = '\r' ∨
      c = Char.ofNat 11 ∨ c = Char.ofNat 12 := by
  have h' := h
  simp [pyWs] at h'
  tauto

theorem digit_not_ws {c : Char} (h : c.isDigit = true) : pyWs c = false := by
  cases hw : pyWs c with
  | false => rfl
  | true =>
    rcases pyWs_cases hw with h' | h' | h' | h' | h' | h' <;>
      (subst h'; exact absurd h (by decide))

theorem inPureClass_cases {c : Char} (h : inPureClass c = true) :
    c.isDigit = true ∨ c = '.' ∨ c = ')' ∨ c = '(' ∨ pyWs c = true ∨
      c = '-' ∨ c = '–' := by
  simpa [inPureClass, or_assoc] using h

theorem digit_not_upper {c : Char} (h : c.isDigit = true) :
    c.isUpper = false := by
  simp [Char.isDigit, Char.isUpper, UInt32.le_def, BitVec.le_def] at *
  omega

theorem ws_not_upper {c : Char} (h : pyWs c = true) : c.isUpper = false := by
  rcases pyWs_cases h with h' | h' | h' | h' | h' | h' <;> (subst h'; decide)

theorem pureClass_not_upper {c : Char} (h : inPureClass c = true) :
    c.isUpper = false := by
  rcases inPureClass_cases h with h' | h' | h' | h' | h' | h' | h'
  · exact digit_not_upper h'
  all_goals first
    | (subst h'; decide)
    | exact ws_not_upper h'

theorem pyLower_eq_self {c : Char} (h : c.isUpper = false) : pyLower c = c := by
  simp [pyLower, h]

theorem pyStrip_all_ws {s : List Char} (h : pyStrip s = []) :
    ∀ c ∈ s, pyWs c = true := by
  unfold pyStrip at h
  have h2 : (s.dropWhile pyWs).reverse.dropWhile pyWs = [] := by
    have := congrArg List.reverse h
    simpa using this
  rw [List.dropWhile_eq_nil_iff] at h2
  have hdrop : ∀ c ∈ s.dropWhile pyWs, pyWs c = true := by
    intro c hc
    exact h2 c (by simpa using hc)
  intro c hc
  rw [← List.takeWhile_append_dropWhile (p := pyWs) (l := s)] at hc
  rcases List.mem_append.1 hc with h' | h'
  · exact List.mem_takeWhile_imp h'
  · exact hdrop c h'


theorem collapseAux_id :
    ∀ s : List Char,
      s.Chain' (fun c d => pyWs c = true → c = ' ' ∧ pyWs d = false) →
      (∀ c ∈ s.getLast?, pyWs c = false) →
      ((∀ c ∈ s.head?, pyWs c = false) → ∀ b, collapseWsAux b s = s) ∧
      (∀ d rest2, s = ' ' :: d :: rest2 → pyWs d = false →
        collapseWsAux false s = s)
  | [], _, _ => by
    constructor
    · intro _ b; rfl
    · intro d rest2 h; cases h
  | c :: rest, hch, hl => by
    have ihrest := collapseAux_id rest hch.tail
      (by
        intro x hx
        cases rest with
        | nil => cases hx
        | cons d tail => exact hl x (by rw [List.getLast?_cons_cons]; exact hx))
    constructor
    · intro hh b
      have hc : pyWs c = false := hh c rfl
      show collapseWsAux b (c :: rest) = c :: rest
      have step : collapseWsAux b (c :: rest) = c :: collapseWsAux false rest := by
        cases b <;> simp [collapseWsAux, hc]
      rw [step]
      congr 1
      cases rest with
      | nil => rfl
      | cons d tail =>
        cases hd : pyWs d with
        | false => exact ihrest.1 (by intro x hx; cases hx; exact hd) false
        | true =>
          cases tail with
          | nil =>
            have : pyWs d = false := hl d (by rw [List.getLast?_cons_cons]; rfl)
            rw [this] at hd; cases hd
          | cons e tail2 =>
            have hre := (List.chain'_cons.mp hch.tail).1 hd
            have hd' : d = ' ' := hre.1
            subst hd'
            exact ihrest.2 e tail2 rfl hre.2
    · intro d rest2 hs hd
      cases hs
      show collapseWsAux false (' ' :: d :: rest2) = ' ' :: d :: rest2
      have step : collapseWsAux false (' ' :: d :: rest2) =
          ' ' :: collapseWsAux true (d :: rest2) := by
        have hsp : pyWs ' ' = true := by decide
        simp [collapseWsAux, hsp]
      rw [step]
      congr 1
      exact ihrest.1 (by intro x hx; cases hx; exact hd) true

theorem cleanWs_eq_self {s : List Char} (h : CleanTok s) : cleanWs s = s := by
  obtain ⟨hh, hl, hch⟩ := h
  unfold cleanWs
  rw [(collapseAux_id s ((wsChainB_iff s).mp hch) hl).1 hh false,
    pyStrip_eq_self hh hl]

theorem cleanTok_append {a b : List Char} (ha : CleanTok a) (hb : CleanTok b)
    (hbne : b ≠ []) : CleanTok (a ++ b) := by
  obtain ⟨ha1, ha2, ha3⟩ := ha
  obtain ⟨hb1, hb2, hb3⟩ := hb
  refine ⟨?_, ?_, ?_⟩
  · intro c hc
    cases a with
    | nil => exact hb1 c hc
    | cons x xs => exact ha1 c (by simpa using hc)
  · intro c hc
    rw [List.getLast?_append_of_ne_nil a hbne] at hc
    exact hb2 c hc
  · rw [wsChainB_iff, List.chain'_append]
    refine ⟨(wsChainB_iff a).mp ha3, (wsChainB_iff b).mp hb3, ?_⟩
    intro x hx y _ hwx
    rw [ha2 x hx] at hwx
    cases hwx

theorem cleanTokMid_append {a b : List Char}
    (hah : ∀ c ∈ a.head?, pyWs c = false)
    (hach : wsChainB a = true)
    (hal : ∀ c ∈ a.getLast?, pyWs c = false ∨ c = ' ')
    (hb : CleanTok b) (hbne : b ≠ []) : CleanTok (a ++ b) := by
  obtain ⟨hb1, hb2, hb3⟩ := hb
  refine ⟨?_, ?_, ?_⟩
  · intro c hc
    cases a with
    | nil => exact hb1 c hc
    | cons x xs => exact hah c (by simpa using hc)
  · intro c hc
    rw [List.getLast?_append_of_ne_nil a hbne] at hc
    exact hb2 c hc
  · rw [wsChainB_iff, List.chain'_append]
    refine ⟨(wsChainB_iff a).mp hach, (wsChainB_iff b).mp hb3, ?_⟩
    intro x hx y hy hwx
    rcases hal x hx with h' | h'
    · rw [h'] at hwx; cases hwx
    · exact ⟨h', hb1 y hy⟩

theorem takeWhile_append_left {p : Char → Bool} :
    ∀ xs ys : List Char, (∀ x ∈ xs, p x = true) →
      (∀ y ∈ ys.head?, p y = false) → (xs ++ ys).takeWhile p = xs
  | [], ys, _, hy => by
    cases ys with
    | nil => rfl
    | cons y t => simp [List.takeWhile, hy y rfl]
  | x :: xs, ys, hx, hy => by
    have hpx : p x = true := hx x (by simp)
    simp only [List.cons_append, List.takeWhile, hpx]
    simpa using takeWhile_append_left xs ys (fun z hz => hx z (by simp [hz])) hy

theorem dropWhile_append_right {p : Char → Bool} :
    ∀ xs ys : List Char, (∀ x ∈ xs, p x = true) →
      (∀ y ∈ ys.head?, p y = false) → (xs ++ ys).dropWhile p = ys
  | [], ys, _, hy => by
    cases ys with
    | nil => rfl
    | cons y t => exact dropWhile_cons_of_neg (hy y rfl)
  | x :: xs, ys, hx, hy => by
    have hpx : p x = true := hx x (by simp)
    simp only [List.cons_append, List.dropWhile, hpx]
    exact dropWhile_append_right xs ys (fun z hz => hx z (by simp [hz])) hy

theorem splitNl_cons_eq (c : Char) (rest : List Char) :
    splitNl (c :: rest) =
      match splitNl rest with
      | [] => [[c]]
      | h :: t => if c = '\n' then [] :: h :: t else (c :: h) :: t := rfl

theorem splitNl_ne_nil : ∀ l : List Char, splitNl l ≠ []
  | [] => by simp [splitNl]
  | c :: rest => by
    rw [splitNl_cons_eq]
    cases h : splitNl rest with
    | nil => exact absurd h (splitNl_ne_nil rest)
    | cons x t => by_cases hc : c = '\n' <;> simp [hc]

theorem splitNl_no_nl : ∀ l : List Char, '\n' ∉ l → splitNl l = [l]
  | [], _ => rfl
  | c :: rest, h => by
    have hc : c ≠ '\n' := fun hc => h (hc ▸ List.mem_cons_self c rest)
    have ih := splitNl_no_nl rest (fun hm => h (List.mem_cons_of_mem c hm))
    rw [splitNl_cons_eq, ih]
    simp [hc]

theorem splitNl_append : ∀ l rest : List Char, '\n' ∉ l →
    splitNl (l ++ '\n' :: rest) = l :: splitNl rest
  | [], rest, _ => by
    show splitNl ('\n' :: rest) = [] :: splitNl rest
    rw [splitNl_cons_eq]
    cases h : splitNl rest with
    | nil => exact absurd h (splitNl_ne_nil rest)
    | cons x t => simp
  | c :: l, rest, h => by
    have hc : c ≠ '\n' := fun hc => h (hc ▸ List.mem_cons_self c l)
    have ih := splitNl_append l rest (fun hm => h (List.mem_cons_of_mem c hm))
    show splitNl (c :: (l ++ '\n' :: rest)) = (c :: l) :: splitNl rest
    rw [splitNl_cons_eq, ih]
    simp [hc]

/-- Join lines with single newlines (the inverse image used to state the
well-formed-numbered-list theorems). -/
def joinNlLines : List (List Char) → List Char
  | [] => []
  | [l] => l
  | l :: l2 :: rest => l ++ '\n' :: joinNlLines (l2 :: rest)

theorem splitNl_joinNlLines : ∀ ls : List (List Char), ls ≠ [] →
    (∀ l ∈ ls, '\n' ∉ l) → splitNl (joinNlLines ls) = ls
  | [], h, _ => absurd rfl h
  | [l], _, hn => by
    show splitNl l = [l]
    exact splitNl_no_nl l (hn l (by simp))
  | l :: l2 :: rest, _, hn => by
    show splitNl (l ++ '\n' :: joinNlLines (l2 :: rest)) = l :: l2 :: rest
    rw [splitNl_append l _ (hn l (by simp))]
    rw [splitNl_joinNlLines (l2 :: rest) (by simp)
      (fun x hx => hn x (List.mem_cons_of_mem l hx))]

/-- One line of a well-formed numbered list: `<digits>. <text>`. -/
def numberedLine (n t : List Char) : List Char :=
  n ++ '.' :: ' ' :: t

/-- A well-formed numbered list document. -/
def numberedText (ns ts : List (List Char)) : List Char :=
  joinNlLines (List.zipWith numberedLine ns ts)

theorem mem_zipWith {α β γ : Type} {f : α → β → γ} :
    ∀ {as : List α} {bs : List β} {x : γ}, x ∈ List.zipWith f as bs →
      ∃ a ∈ as, ∃ b ∈ bs, x = f a b := by
  intro as
  induction as with
  | nil => intro bs x h; simp [List.zipWith] at h
  | cons a as ih =>
    intro bs x h
    cases bs with
    | nil => simp [List.zipWith] at h
    | cons b bs =>
      rw [List.zipWith_cons_cons] at h
      rcases List.mem_cons.mp h with h' | h'
      · exact ⟨a, by simp, b, by simp, h'⟩
      · rcases ih h' with ⟨a', ha', b', hb', hx⟩
        exact ⟨a', by simp [ha'], b', by simp [hb'], hx⟩

theorem joinNlLines_cons (l : List Char) (ls : List (List Char)) :
    ∃ suf, joinNlLines (l :: ls) = l ++ suf := by
  cases ls with
  | nil => exact ⟨[], by simp [joinNlLines]⟩
  | cons l2 rest => exact ⟨'\n' :: joinNlLines (l2 :: rest), rfl⟩

theorem enumFrom_map_add_one {α : Type} :
    ∀ (k : Nat) (l : List α),
      (List.enumFrom k l).map (fun p => p.1 + 1) = List.range' (k + 1) l.length
  | _, [] => rfl
  | k, a :: l => by
    simp only [List.enumFrom, List.map_cons, List.length_cons, List.range']
    rw [enumFrom_map_add_one (k + 1) l]

theorem firstCapture_numbered {n t : List Char} (hn : n ≠ [])
    (hd : ∀ c ∈ n, c.isDigit = true) (ht : t ≠ [])
    (hth : ∀ c ∈ t.head?, pyWs c = false) :
    firstCapture (numberedLine n t) = some t := by
  have hds : (n ++ '.' :: ' ' :: t).takeWhile Char.isDigit = n := by
    refine takeWhile_append_left n _ hd ?_
    intro y hy
    cases hy
    decide
  have hdrop : (n ++ '.' :: ' ' :: t).drop n.length = '.' :: ' ' :: t := by
    simp
  have htc : tailCapture (' ' :: t) = some t := by
    unfold tailCapture
    rw [if_neg (by simp)]
    have h1 : (' ' :: t).dropWhile pyWs = t.dropWhile pyWs := by
      have hsp : pyWs ' ' = true := by decide
      simp [List.dropWhile, hsp]
    have h2 : t.dropWhile pyWs = t := by
      cases t with
      | nil => rfl
      | cons x xs => exact dropWhile_cons_of_neg (hth x rfl)
    rw [h1, h2]
    cases t with
    | nil => exact absurd rfl ht
    | cons x xs => rfl
  have hm : matchNumSep '.' (numberedLine n t) = some t := by
    unfold matchNumSep numberedLine
    simp only [hds, if_neg hn]
    rw [show (n ++ '.' :: ' ' :: t).drop n.length = '.' :: ' ' :: t from hdrop]
    simp [htc]
  unfold firstCapture
  rw [hm]
  rfl

theorem parseLoop_numbered :
    ∀ (ns ts : List (List Char)), ns.length = ts.length →
      (∀ n ∈ ns, n ≠ [] ∧ ∀ c ∈ n, c.isDigit = true) →
      (∀ t ∈ ts, CleanTok t ∧ t ≠ []) →
      ∀ cur, pyStrip cur = cur →
        parseLoop (List.zipWith numberedLine ns ts) cur =
          (if cur = [] then [] else [cur]) ++ ts
  | [], ts, hlen, _, _, cur, hcur => by
    have : ts = [] := List.length_eq_zero.mp (by simpa using hlen.symm)
    subst this
    simp [parseLoop, hcur]
  | n :: ns, t :: ts, hlen, hns, hts, cur, hcur => by
    have hnhd := hns n (by simp)
    have hthd := hts t (by simp)
    obtain ⟨hcl, htne⟩ := hthd
    obtain ⟨hclh, hcll, _⟩ := hcl
    have hline : pyStrip (numberedLine n t) = numberedLine n t := by
      refine pyStrip_eq_self ?_ ?_
      · intro c hc
        unfold numberedLine at hc
        cases n with
        | nil => exact absurd rfl hnhd.1
        | cons n0 nrest =>
          simp only [List.cons_append, List.head?_cons, Option.mem_def,
            Option.some.injEq] at hc
          subst hc
          exact digit_not_ws (hnhd.2 n0 (by simp))
      · intro c hc
        unfold numberedLine at hc
        rw [List.getLast?_append_of_ne_nil n (by simp)] at hc
        have : ('.' :: ' ' :: t) = ['.', ' '] ++ t := rfl
        rw [this, List.getLast?_append_of_ne_nil _ htne] at hc
        exact hcll c hc
    have hlne : numberedLine n t ≠ [] := by
      unfold numberedLine
      simp
    have hcap := firstCapture_numbered hnhd.1 hnhd.2 htne hclh
    show parseLoop (numberedLine n t :: List.zipWith numberedLine ns ts) cur = _
    unfold parseLoop
    simp only [hline, if_neg hlne, hcap]
    have hstript : pyStrip t = t := pyStrip_eq_self hclh hcll
    rw [hstript]
    rw [parseLoop_numbered ns ts (by simpa using hlen)
      (fun x hx => hns x (by simp [hx])) (fun x hx => hts x (by simp [hx]))
      t (by rw [hstript])]
    rw [if_neg htne]
    by_cases hc : cur = [] <;> simp [hc, hcur]

theorem toList_mk (l : List Char) : (String.mk l).toList = l := rfl

theorem cleanAndFilter_id {ts : List (List Char)}
    (h : ∀ t ∈ ts, CleanTok t ∧ 10 ≤ t.length ∧ pureNum t = false ∧
      anySkip t = false) : cleanAndFilter ts = ts := by
  unfold cleanAndFilter
  have hmap : ts.map cleanWs = ts := by
    rw [List.map_congr_left fun t ht => cleanWs_eq_self (h t ht).1]
    exact List.map_id ts
  rw [hmap]
  refine List.filter_eq_self.mpr fun q hq => ?_
  obtain ⟨_, hlen, hpure, hskip⟩ := h q hq
  simp [hpure, hskip, Nat.not_lt.mpr hlen]

theorem extract_numbered_core (ns ts : List (List Char))
    (hlen : ns.length = ts.length)
    (hns : ∀ n ∈ ns, n ≠ [] ∧ ∀ c ∈ n, c.isDigit = true)
    (hts : ∀ t ∈ ts, CleanTok t ∧ 10 ≤ t.length ∧ pureNum t = false ∧
      anySkip t = false ∧ '\n' ∉ t) :
    extractQuestions (String.mk (numberedText ns ts)) =
      ts.map fun t => String.mk t := by
  cases ts with
  | nil =>
    have hns0 : ns = [] := List.length_eq_zero.mp (by simpa using hlen)
    subst hns0
    rfl
  | cons t ts' =>
    cases ns with
    | nil => exact absurd hlen (by simp)
    | cons n ns' =>
      have htshyp : ∀ x ∈ t :: ts', CleanTok x ∧ x ≠ [] := by
        intro x hx
        obtain ⟨h1, h2, _⟩ := hts x hx
        exact ⟨h1, by intro hx0; rw [hx0] at h2; simp at h2⟩
      have hlinesne : List.zipWith numberedLine (n :: ns') (t :: ts') ≠ [] := by
        rw [List.zipWith_cons_cons]
        simp
      have hnoNl : ∀ l ∈ List.zipWith numberedLine (n :: ns') (t :: ts'),
          '\n' ∉ l := by
        intro l hl hmem
        rcases mem_zipWith hl with ⟨a, ha, b, hb, hx⟩
        subst hx
        unfold numberedLine at hmem
        rcases List.mem_append.mp hmem with hm | hm
        · have := (hns a ha).2 '\n' hm
          exact absurd this (by decide)
        · rcases List.mem_cons.mp hm with hm' | hm'
          · exact absurd hm' (by decide)
          · rcases List.mem_cons.mp hm' with hm'' | hm''
            · exact absurd hm'' (by decide)
            · exact (hts b hb).2.2.2.2 hm''
      have hsplit : splitNl (numberedText (n :: ns') (t :: ts')) =
          List.zipWith numberedLine (n :: ns') (t :: ts') :=
        splitNl_joinNlLines _ hlinesne hnoNl
      have hparse := parseLoop_numbered (n :: ns') (t :: ts') hlen hns htshyp
        [] rfl
      have hguard : pyStrip (String.mk (numberedText (n :: ns') (t :: ts'))).toList ≠ [] := by
        rw [toList_mk]
        intro hstrip
        have hall := pyStrip_all_ws hstrip
        cases hn0 : n with
        | nil => exact absurd hn0 (hns n (by simp)).1
        | cons n0 nrest =>
          rcases joinNlLines_cons (numberedLine n t)
            (List.zipWith numberedLine ns' ts') with ⟨suf, hsuf⟩
          have hmem : n0 ∈ numberedText (n :: ns') (t :: ts') := by
            unfold numberedText
            rw [List.zipWith_cons_cons, hsuf]
            unfold numberedLine
            rw [hn0]
            simp
          have hws := hall n0 hmem
          have hd0 : n0.isDigit = true := (hns n (by simp)).2 n0 (by rw [hn0]; simp)
          rw [digit_not_ws hd0] at hws
          cases hws
      have hclean : cleanAndFilter (t :: ts') = t :: ts' :=
        cleanAndFilter_id fun x hx => ⟨(hts x hx).1, (hts x hx).2.1,
          (hts x hx).2.2.1, (hts x hx).2.2.2.1⟩
      have hparse' : parseLoop (List.zipWith numberedLine (n :: ns')
          (t :: ts')) [] = t :: ts' := by simpa using hparse
      unfold extractQuestions
      rw [if_neg hguard, toList_mk]
      unfold parseQuestions
      rw [hsplit, hparse', hclean, if_neg (by simp)]

/-- C1 (corrected): for a well-formed numbered list `<digits>. <text>` whose
texts are whitespace-normalised, at least 10 characters long, not pure
digits/punctuation and free of administrative prefixes, segmentation returns
exactly the texts in source order and `questions_data` assigns ordinal
`i + 1` to the `i`-th question — but texts shorter than 10 characters are
discarded by the post-filter, so the spec's own example `1. Q1\n2. Q2\n3. Q3`
yields no questions at all (see the counterexample). -/
theorem c1_numbered_list_segmentation (ns ts : List (List Char))
    (hlen : ns.length = ts.length)
    (hns : ∀ n ∈ ns, n ≠ [] ∧ ∀ c ∈ n, c.isDigit = true)
    (hts : ∀ t ∈ ts, CleanTok t ∧ 10 ≤ t.length ∧ pureNum t = false ∧
      anySkip t = false ∧ '\n' ∉ t) :
    extractQuestions (String.mk (numberedText ns ts)) =
      (ts.map fun t => String.mk t) ∧
    (mkQuestionsData (extractQuestions (String.mk (numberedText ns ts)))).map
      QuestionItem.question_number = List.range' 1 ts.length := by
  have hmain := extract_numbered_core ns ts hlen hns hts
  refine ⟨hmain, ?_⟩
  rw [hmain]
  unfold mkQuestionsData
  rw [List.map_map]
  have : (QuestionItem.question_number ∘ fun p : Nat × String => (⟨p.2, p.1 + 1⟩ : QuestionItem)) =
      fun p : Nat × String => p.1 + 1 := rfl
  rw [this]
  unfold List.enum
  rw [enumFrom_map_add_one 0 (ts.map fun t => String.mk t)]
  rw [List.length_map]

/-- Witness for C1: a concrete three-question numbered list with long texts
is segmented into exactly those three questions with ordinals 1, 2, 3. -/
theorem c1_numbered_list_segmentation_witness :
    extractQuestions (String.mk (numberedText
        [['1'], ['2'], ['3']]
        ["What is a binary search tree structure?".toList,
         "Explain the quicksort algorithm in detail".toList,
         "Describe hash table collision resolution".toList])) =
      ["What is a binary search tree structure?",
       "Explain the quicksort algorithm in detail",
       "Describe hash table collision resolution"] ∧
    (mkQuestionsData (extractQuestions (String.mk (numberedText
        [['1'], ['2'], ['3']]
        ["What is a binary search tree structure?".toList,
         "Explain the quicksort algorithm in detail".toList,
         "Describe hash table collision resolution".toList])))).map
      QuestionItem.question_number = [1, 2, 3] := by
  have h := c1_numbered_list_segmentation
    [['1'], ['2'], ['3']]
    ["What is a binary search tree structure?".toList,
     "Explain the quicksort algorithm in detail".toList,
     "Describe hash table collision resolution".toList]
    (by decide) (by decide) (by decide)
  exact ⟨by rw [h.1]; rfl, by rw [h.2]; rfl⟩

/-- C1 counterexample: the spec's example input `1. Q1\n2. Q2\n3. Q3` does
not yield three questions — the `len(q) < 10` post-filter drops all three
short texts and the fallback pass finds nothing, so segmentation returns the
empty list. -/
theorem c1_counterexample :
    extractQuestions "1. Q1\n2. Q2\n3. Q3" = [] := by decide

/-- C10 (confirmed): `extract_questions` reads and writes no instance state
— `_parse_questions` uses only local variables — so its embedding is a pure
function of the text: the result is identical across distinct states and
across repeated calls, and the state is returned unchanged. -/
theorem c10_extract_questions_stateless (s₁ s₂ : ProcessorState) (t : String) :
    (extractQuestionsS s₁ t).1 = (extractQuestionsS s₂ t).1 ∧
    (extractQuestionsS s₁ t).2 = s₁ ∧
    (extractQuestionsS (extractQuestionsS s₁ t).2 t).1 =
      (extractQuestionsS s₁ t).1 := ⟨rfl, rfl, rfl⟩

/-- Witness for C10 at a concrete state and text. -/
theorem c10_extract_questions_stateless_witness :
    (extractQuestionsS initProcessor "1. Define a stack now").1 =
      (extractQuestionsS ⟨[]⟩ "1. Define a stack now").1 ∧
    (extractQuestionsS initProcessor "1. Define a stack now").2 =
      initProcessor :=
  ⟨(c10_extract_questions_stateless initProcessor ⟨[]⟩
      "1. Define a stack now").1,
   (c10_extract_questions_stateless initProcessor ⟨[]⟩
      "1. Define a stack now").2.1⟩

theorem cleanTok_ws_space :
    ∀ {t : List Char}, (∀ c ∈ t.getLast?, pyWs c = false) → wsChainB t = true →
      ∀ c ∈ t, pyWs c = true → c = ' '
  | [], _, _ => by intro c hc; cases hc
  | [x], hl, _ => by
    intro c hc hws
    rcases List.mem_singleton.mp hc with rfl
    rw [hl c rfl] at hws
    cases hws
  | x :: y :: rest, hl, hch => by
    have hch' := (wsChainB_iff (x :: y :: rest)).mp hch
    intro c hc hws
    rcases List.mem_cons.mp hc with rfl | hc'
    · exact ((List.chain'_cons.mp hch').1 hws).1
    · refine cleanTok_ws_space ?_ ((wsChainB_iff (y :: rest)).mpr
        (List.chain'_cons.mp hch').2) c hc' hws
      intro z hz
      exact hl z (by rw [List.getLast?_cons_cons]; exact hz)

theorem cleanTok_no_nl {t : List Char} (h : CleanTok t) : '\n' ∉ t := by
  intro hmem
  have := cleanTok_ws_space h.2.1 h.2.2 '\n' hmem (by decide)
  cases this

theorem containsSub_subset {pat : List Char} :
    ∀ {s : List Char}, containsSub pat s = true → ∀ c ∈ pat, c ∈ s := by
  intro s
  induction s with
  | nil =>
    intro h c hc
    have : pat = [] := by simpa [containsSub, List.isEmpty_iff] using h
    rw [this] at hc
    cases hc
  | cons x rest ih =>
    intro h c hc
    have h2 : pat <+: (x :: rest) ∨ containsSub pat rest = true := by
      simpa [containsSub] using h
    rcases h2 with h' | h'
    · exact h'.subset hc
    · exact List.mem_cons_of_mem x (ih h' c hc)

theorem letter_not_pure {c : Char} (h : asciiLetter c = true) :
    inPureClass c = false := by
  cases hp : inPureClass c with
  | false => rfl
  | true =>
    exfalso
    rcases inPureClass_cases hp with h' | h' | h' | h' | h' | h' | h'
    · rcases Bool.or_eq_true_iff.mp h with hu | hl
      · rw [digit_not_upper h'] at hu; cases hu
      · simp [Char.isDigit, Char.isLower, UInt32.le_def, BitVec.le_def] at h' hl
        omega
    · subst h'; revert h; decide
    · subst h'; revert h; decide
    · subst h'; revert h; decide
    · rcases pyWs_cases h' with w | w | w | w | w | w <;>
        (subst w; revert h; decide)
    · subst h'; revert h; decide
    · subst h'; revert h; decide

theorem pureNum_false_of_mem {q : List Char} {c : Char} (hc : c ∈ q)
    (hp : inPureClass c = false) : pureNum q = false := by
  cases h : pureNum q with
  | false => rfl
  | true =>
    exfalso
    have hall := (Bool.and_eq_true _ _).mp h
    have := List.all_eq_true.mp hall.2 c hc
    rw [hp] at this
    cases this

/-- C5 (corrected): every question in the segmenter's final output has at
least 10 characters (the primary pass drops shorter ones; fallback lines are
longer than 15) and never matches the pure digits/punctuation pattern — but
the filter is a character count, not the spec's "more than 3
whitespace-separated tokens" (see the counterexample). -/
theorem c5_question_filter_invariant (text : String) (q : String)
    (hq : q ∈ extractQuestions text) :
    10 ≤ q.length ∧ pureNum q.toList = false := by
  unfold extractQuestions at hq
  by_cases hguard : pyStrip text.toList = []
  · rw [if_pos hguard] at hq; cases hq
  · rw [if_neg hguard] at hq
    rcases List.mem_map.mp hq with ⟨ql, hql, rfl⟩
    have hgoal : 10 ≤ ql.length ∧ pureNum ql = false := by
      unfold parseQuestions at hql
      by_cases hclean :
          cleanAndFilter (parseLoop (splitNl text.toList) []) = []
      · rw [if_pos hclean] at hql
        unfold fallbackPass at hql
        rcases List.mem_filterMap.mp hql with ⟨line, _, hline⟩
        by_cases hlen : 15 < (pyStrip line).length
        · rw [if_pos hlen] at hline
          by_cases hind : indicatorWords.any
              (fun w => containsSub w ((pyStrip line).map pyLower)) = true
          · rw [if_pos hind] at hline
            injection hline with hline
            subst hline
            refine ⟨by omega, ?_⟩
            rcases List.any_eq_true.mp hind with ⟨w, hw, hcont⟩
            have hAll : ∀ x ∈ indicatorWords,
                (decide (x ≠ []) && asciiLetter (x.headD ' ')) = true := by
              decide
            have hw' := hAll w hw
            cases w with
            | nil => simp at hw'
            | cons a wrest =>
              have hcl : asciiLetter a = true := by
                simpa using ((Bool.and_eq_true _ _).mp hw').2
              have hcmem : a ∈ (pyStrip line).map pyLower :=
                containsSub_subset hcont a (by simp)
              rcases List.mem_map.mp hcmem with ⟨c', hc', hlow⟩
              refine pureNum_false_of_mem hc' ?_
              cases hpc : inPureClass c' with
              | false => rfl
              | true =>
                exfalso
                have heq : pyLower c' = c' :=
                  pyLower_eq_self (pureClass_not_upper hpc)
                rw [heq] at hlow
                subst hlow
                rw [letter_not_pure hcl] at hpc
                cases hpc
          · rw [if_neg hind] at hline
            by_cases hqm : (pyStrip line).getLastD ' ' = '?'
            · rw [if_pos hqm] at hline
              injection hline with hline
              subst hline
              refine ⟨by omega, ?_⟩
              have hne : pyStrip line ≠ [] := by
                intro h0
                rw [h0] at hlen
                simp at hlen
              have hql : '?' ∈ pyStrip line := by
                rw [List.getLastD_eq_getLast?] at hqm
                cases hg : (pyStrip line).getLast? with
                | none => exact absurd (List.getLast?_eq_none_iff.mp hg) hne
                | some x =>
                  rw [hg] at hqm
                  simp at hqm
                  subst hqm
                  exact List.mem_of_getLast?_eq_some hg
              exact pureNum_false_of_mem hql (by decide)
            · rw [if_neg hqm] at hline
              cases hline
        · rw [if_neg hlen] at hline
          cases hline
      · rw [if_neg hclean] at hql
        unfold cleanAndFilter at hql
        have hfil := List.of_mem_filter hql
        have h1 : (ql.length < 10 || pureNum ql) = false := by
          have := (Bool.and_eq_true _ _).mp hfil
          cases h2 : (ql.length < 10 || pureNum ql) with
          | false => rfl
          | true => rw [h2] at this; simp at this
            
        rcases Bool.or_eq_false_iff.mp h1 with ⟨hl, hp⟩
        exact ⟨by simpa using Nat.not_lt.mp (by simpa using hl), hp⟩
    exact ⟨by simpa [String.length] using hgoal.1, hgoal.2⟩

/-- Witness for C5 at a concrete extraction. -/
theorem c5_question_filter_invariant_witness :
    10 ≤ ("Define a stack in your own words" : String).length ∧
      pureNum ("Define a stack in your own words" : String).toList = false :=
  c5_question_filter_invariant "1. Define a stack in your own words"
    "Define a stack in your own words" (by decide)

/-- Python `str.split()` tokens: maximal runs of non-whitespace. -/
def tokensAux : List Char → List Char → List (List Char)
  | curRev, [] => if curRev = [] then [] else [curRev.reverse]
  | curRev, c :: rest =>
    if pyWs c then
      if curRev = [] then tokensAux [] rest
      else curRev.reverse :: tokensAux [] rest
    else tokensAux (c :: curRev) rest

/-- Whitespace-separated tokens of a string (Python `str.split()`). -/
def pyTokens (s : List Char) : List (List Char) :=
  tokensAux [] s

/-- C5 counterexample: `1. Define recursion carefully` survives the filter
although its text has only 3 whitespace-separated tokens, refuting the
claim's "strictly more than 3 tokens" invariant (the code's threshold is 10
characters, not 4 tokens). -/
theorem c5_counterexample :
    extractQuestions "1. Define recursion carefully" =
      ["Define recursion carefully"] ∧
    (pyTokens "Define recursion carefully".toList).length = 3 := by
  exact ⟨by decide, by decide⟩

theorem firstCapture_answer_line (t : List Char) :
    firstCapture ("Answer: ".toList ++ t) = none := rfl

theorem contMatch_answer_line (t : List Char) :
    contMatch ("Answer: ".toList ++ t) = false := rfl

/-- C2 (corrected): an `Answer: ...` line following a question is NOT an
implicit terminator — no start pattern matches it and the continuation guard
does not fire, so the whole line (answer text included) is appended to the
accumulating question.  The claim's promised behaviour fails on the code
(see the counterexample); this theorem proves what the code actually does. -/
theorem c2_answer_line_is_continuation (t : List Char) (hct : CleanTok t)
    (htne : t ≠ []) :
    extractQuestions (String.mk
      ("1. What is recursion in programming terms?\nAnswer: ".toList ++ t)) =
    [String.mk
      ("What is recursion in programming terms? Answer: ".toList ++ t)] := by
  obtain ⟨hth, htl, htc⟩ := hct
  have hthead : ∀ c ∈ ("Answer: ".toList ++ t).head?, pyWs c = false := by
    intro c hc
    have h0 : ("Answer: ".toList ++ t).head? = some 'A' := rfl
    rw [h0, Option.mem_def, Option.some.injEq] at hc
    subst hc
    decide
  have htlast : ∀ c ∈ ("Answer: ".toList ++ t).getLast?, pyWs c = false := by
    intro c hc
    rw [List.getLast?_append_of_ne_nil _ htne] at hc
    exact htl c hc
  have hstrip2 : pyStrip ("Answer: ".toList ++ t) = "Answer: ".toList ++ t :=
    pyStrip_eq_self hthead htlast
  have hnonl : '\n' ∉ "Answer: ".toList ++ t := by
    intro hm
    rcases List.mem_append.mp hm with hm' | hm'
    · revert hm'; decide
    · exact cleanTok_no_nl ⟨hth, htl, htc⟩ hm'
  have hsplit : splitNl
      ("1. What is recursion in programming terms?\nAnswer: ".toList ++ t) =
      ["1. What is recursion in programming terms?".toList,
       "Answer: ".toList ++ t] := by
    have h1 : "1. What is recursion in programming terms?\nAnswer: ".toList ++ t =
        "1. What is recursion in programming terms?".toList ++
          '\n' :: ("Answer: ".toList ++ t) := rfl
    rw [h1, splitNl_append _ _ (by decide), splitNl_no_nl _ hnonl]
  have hne2 : "Answer: ".toList ++ t ≠ [] := by simp
  have hcur : "What is recursion in programming terms?".toList ++
      ' ' :: ("Answer: ".toList ++ t) =
      "What is recursion in programming terms? Answer: ".toList ++ t := rfl
  have hcurtok : CleanTok
      ("What is recursion in programming terms? Answer: ".toList ++ t) :=
    cleanTokMid_append (by decide) (by decide) (by decide) ⟨hth, htl, htc⟩ htne
  have hstripcur : pyStrip
      ("What is recursion in programming terms? Answer: ".toList ++ t) =
      "What is recursion in programming terms? Answer: ".toList ++ t :=
    pyStrip_eq_self hcurtok.1 hcurtok.2.1
  have hparse : parseLoop
      ["1. What is recursion in programming terms?".toList,
       "Answer: ".toList ++ t] [] =
      ["What is recursion in programming terms? Answer: ".toList ++ t] := by
    have step1 : parseLoop
        ["1. What is recursion in programming terms?".toList,
         "Answer: ".toList ++ t] [] =
        parseLoop ["Answer: ".toList ++ t]
          "What is recursion in programming terms?".toList := rfl
    rw [step1]
    show parseLoop (("Answer: ".toList ++ t) :: [])
      "What is recursion in programming terms?".toList = _
    unfold parseLoop
    rw [hstrip2, if_neg hne2, firstCapture_answer_line, contMatch_answer_line]
    show parseLoop []
        ("What is recursion in programming terms?".toList ++
          ' ' :: ("Answer: ".toList ++ t)) = _
    unfold parseLoop
    rw [hcur, if_neg (by simp), hstripcur]
  have hfilter : cleanAndFilter
      ["What is recursion in programming terms? Answer: ".toList ++ t] =
      ["What is recursion in programming terms? Answer: ".toList ++ t] := by
    refine cleanAndFilter_id fun x hx => ?_
    rcases List.mem_singleton.mp hx with rfl
    refine ⟨hcurtok, ?_, ?_, ?_⟩
    · rw [List.length_append]
      have h48 : ("What is recursion in programming terms? Answer: ".toList).length = 48 := by
        decide
      omega
    · refine pureNum_false_of_mem (c := 'W') ?_ (by decide)
      exact List.mem_append.mpr (Or.inl (by decide))
    · rfl
  have h1mem : '1' ∈
      "1. What is recursion in programming terms?\nAnswer: ".toList ++ t :=
    List.mem_append.mpr (Or.inl (by decide))
  have hguard : pyStrip (String.mk
      ("1. What is recursion in programming terms?\nAnswer: ".toList ++ t)).toList ≠ [] := by
    rw [toList_mk]
    intro h0
    have := pyStrip_all_ws h0 '1' h1mem
    rw [show pyWs '1' = false from by decide] at this
    cases this
  unfold extractQuestions
  rw [if_neg hguard, toList_mk]
  unfold parseQuestions
  rw [hsplit, hparse, hfilter, if_neg (by simp)]
  rfl

/-- Witness for C2 at a concrete answer text. -/
theorem c2_answer_line_is_continuation_witness :
    extractQuestions (String.mk
      ("1. What is recursion in programming terms?\nAnswer: ".toList ++
        "It repeats itself".toList)) =
    [String.mk
      ("What is recursion in programming terms? Answer: ".toList ++
        "It repeats itself".toList)] :=
  c2_answer_line_is_continuation "It repeats itself".toList
    (by decide) (by decide)

/-- C2 counterexample: segmenting the spec's example yields a question whose
text contains the whole answer line, contradicting "the emitted Question's
text never contains the answer text". -/
theorem c2_counterexample :
    extractQuestions
      "1. What is recursion in programming terms?\nAnswer: Recursion means a function calls itself" =
      ["What is recursion in programming terms? Answer: Recursion means a function calls itself"] ∧
    containsSub "Recursion means a function calls itself".toList
      "What is recursion in programming terms? Answer: Recursion means a function calls itself".toList = true :=
  ⟨by decide, by decide⟩

/-!
### Reference chunker (`_chunk_content`, pdf_processor.py 279-306)
-/

/-- `re.split(r'[.!?]+', content)` modelled one terminator at a time: a run
of terminators produces intermediate empty strings, which the chunk loop
skips exactly as it skips the empty strings the regex split produces. -/
def splitSent : List Char → List (List Char)
  | [] => [[]]
  | c :: rest =>
    match splitSent rest with
    | [] => [[c]]
    | h :: t =>
      if c = '.' || c = '!' || c = '?' then [] :: h :: t else (c :: h) :: t

/-- The greedy accumulation loop of `_chunk_content`: skip blank sentences,
flush the current chunk when adding the next sentence would exceed
`maxSize`, otherwise append with a single joining space; flush the remainder
at the end. -/
def chunkLoop (maxSize : Nat) : List (List Char) → List Char → List (List Char)
  | [], cur => if cur = [] then [] else [pyStrip cur]
  | s :: rest, cur =>
    let s' := pyStrip s
    if s' = [] then chunkLoop maxSize rest cur
    else if maxSize < cur.length + s'.length then
      (if cur = [] then [] else [pyStrip cur]) ++ chunkLoop maxSize rest s'
    else
      chunkLoop maxSize rest (if cur = [] then s' else cur ++ ' ' :: s')

/-- `"\n\n".join(chunks)`. -/
def joinChunks : List (List Char) → List Char
  | [] => []
  | [c] => c
  | c :: c2 :: rest => c ++ '\n' :: '\n' :: joinChunks (c2 :: rest)

/-- `_chunk_content(content, max_chunk_size)`: sentence split, greedy
accumulation, then join only the first five chunks. -/
def chunkContent (maxSize : Nat) (content : List Char) : List Char :=
  joinChunks ((chunkLoop maxSize (splitSent content) []).take 5)

/-- Total excess of oversized single sentences (the allowance the claim
grants beyond `max_chunks * max_chunk_size`). -/
def oversizedExcess (maxSize : Nat) (content : List Char) : Nat :=
  ((splitSent content).map fun s => (pyStrip s).length - maxSize).sum

/-- Length of the longest stripped sentence. -/
def maxSentenceLen (content : List Char) : Nat :=
  ((splitSent content).map fun s => (pyStrip s).length).foldr max 0

theorem pyStrip_length_le (s : List Char) : (pyStrip s).length ≤ s.length := by
  unfold pyStrip
  calc ((s.dropWhile pyWs).reverse.dropWhile pyWs).reverse.length
      = ((s.dropWhile pyWs).reverse.dropWhile pyWs).length :=
        List.length_reverse _
    _ ≤ (s.dropWhile pyWs).reverse.length :=
        (List.dropWhile_sublist pyWs).length_le
    _ = (s.dropWhile pyWs).length := List.length_reverse _
    _ ≤ s.length := (List.dropWhile_sublist pyWs).length_le

theorem le_foldr_max : ∀ (l : List Nat) (x : Nat), x ∈ l → x ≤ l.foldr max 0
  | [], _, h => absurd h (List.not_mem_nil _)
  | a :: l, x, h => by
    rcases List.mem_cons.mp h with rfl | h'
    · exact Nat.le_max_left _ _
    · exact Nat.le_trans (le_foldr_max l x h') (Nat.le_max_right _ _)

theorem chunkLoop_bound (maxSize B : Nat) (hB : maxSize + 1 ≤ B) :
    ∀ (sentences : List (List Char)) (cur : List Char),
      (∀ s ∈ sentences, (pyStrip s).length ≤ B) → cur.length ≤ B →
      ∀ c ∈ chunkLoop maxSize sentences cur, c.length ≤ B
  | [], cur, _, hcur => by
    intro c hc
    unfold chunkLoop at hc
    by_cases h0 : cur = []
    · rw [if_pos h0] at hc; cases hc
    · rw [if_neg h0] at hc
      rcases List.mem_singleton.mp hc with rfl
      exact Nat.le_trans (pyStrip_length_le cur) hcur
  | s :: rest, cur, hs, hcur => by
    intro c hc
    unfold chunkLoop at hc
    by_cases h1 : pyStrip s = []
    · rw [if_pos h1] at hc
      exact chunkLoop_bound maxSize B hB rest cur
        (fun x hx => hs x (List.mem_cons_of_mem s hx)) hcur c hc
    · rw [if_neg h1] at hc
      have hslen : (pyStrip s).length ≤ B := hs s (List.mem_cons_self s rest)
      by_cases h2 : maxSize < cur.length + (pyStrip s).length
      · rw [if_pos h2] at hc
        rcases List.mem_append.mp hc with hc' | hc'
        · by_cases h0 : cur = []
          · rw [if_pos h0] at hc'; cases hc'
          · rw [if_neg h0] at hc'
            rcases List.mem_singleton.mp hc' with rfl
            exact Nat.le_trans (pyStrip_length_le cur) hcur
        · exact chunkLoop_bound maxSize B hB rest (pyStrip s)
            (fun x hx => hs x (List.mem_cons_of_mem s hx)) hslen c hc'
      · rw [if_neg h2] at hc
        refine chunkLoop_bound maxSize B hB rest _
          (fun x hx => hs x (List.mem_cons_of_mem s hx)) ?_ c hc
        by_cases h0 : cur = []
        · rw [if_pos h0]; exact hslen
        · rw [if_neg h0]
          have : (cur ++ ' ' :: pyStrip s).length =
              cur.length + 1 + (pyStrip s).length := by
            rw [List.length_append]
            simp [Nat.add_comm, Nat.add_left_comm]
          rw [this]
          omega

theorem joinChunks_length : ∀ chunks : List (List Char),
    (joinChunks chunks).length =
      (chunks.map List.length).sum + 2 * (chunks.length - 1)
  | [] => rfl
  | [c] => by simp [joinChunks]
  | c :: c2 :: rest => by
    have ih := joinChunks_length (c2 :: rest)
    unfold joinChunks
    rw [List.length_append]
    simp only [List.length_cons, ih]
    simp only [List.map_cons, List.sum_cons, List.length_cons]
    omega

/-- C6 (corrected): the returned string is the `\n\n`-join of at most five
chunks, and its total length is at most `8 + 5 * max (max_chunk_size + 1)
(longest stripped sentence)`: each chunk exceeds `max_chunk_size` only by
the single joining space, unless it consists of one oversized sentence.
The claim's `max_chunks * max_chunk_size` baseline plus oversized-sentence
excess fails by exactly this joining overhead (see counterexample). -/
theorem c6_chunk_bound (maxSize : Nat) (content : List Char) :
    ((chunkLoop maxSize (splitSent content) []).take 5).length ≤ 5 ∧
    (chunkContent maxSize content).length ≤
      5 * max (maxSize + 1) (maxSentenceLen content) + 8 := by
  constructor
  · exact List.length_take_le 5 _
  · set B := max (maxSize + 1) (maxSentenceLen content) with hB
    have hchunks : ∀ c ∈ chunkLoop maxSize (splitSent content) [], c.length ≤ B := by
      refine chunkLoop_bound maxSize B (Nat.le_max_left _ _)
        (splitSent content) [] ?_ (by simp)
      intro s hsm
      exact Nat.le_trans
        (le_foldr_max _ _ (List.mem_map.mpr ⟨s, hsm, rfl⟩))
        (Nat.le_max_right _ _)
    have htake : ∀ c ∈ (chunkLoop maxSize (splitSent content) []).take 5,
        c.length ≤ B := fun c hc => hchunks c (List.mem_of_mem_take hc)
    unfold chunkContent
    rw [joinChunks_length]
    have hlen5 : ((chunkLoop maxSize (splitSent content) []).take 5).length ≤ 5 :=
      List.length_take_le 5 _
    have hsum : (((chunkLoop maxSize (splitSent content) []).take 5).map
        List.length).sum ≤ 5 * B := by
      calc (((chunkLoop maxSize (splitSent content) []).take 5).map
          List.length).sum
          ≤ (((chunkLoop maxSize (splitSent content) []).take 5).map
            List.length).length * B := by
            refine List.sum_le_card_nsmul _ B ?_
            intro x hx
            rcases List.mem_map.mp hx with ⟨c, hc, rfl⟩
            exact htake c hc
        _ ≤ 5 * B := by
            rw [List.length_map]
            exact Nat.mul_le_mul_right B hlen5
    omega

theorem pyStrip_eq_self_all {s : List Char} (h : ∀ c ∈ s, pyWs c = false) :
    pyStrip s = s :=
  pyStrip_eq_self
    (fun c hc => h c (List.mem_of_mem_head? hc))
    (fun c hc => h c (List.mem_of_getLast?_eq_some hc))

theorem splitSent_cons_eq (c : Char) (rest : List Char) :
    splitSent (c :: rest) =
      match splitSent rest with
      | [] => [[c]]
      | h :: t =>
        if c = '.' || c = '!' || c = '?' then [] :: h :: t
        else (c :: h) :: t := rfl

theorem splitSent_ne_nil : ∀ l : List Char, splitSent l ≠ []
  | [] => by simp [splitSent]
  | c :: rest => by
    rw [splitSent_cons_eq]
    cases h : splitSent rest with
    | nil => exact absurd h (splitSent_ne_nil rest)
    | cons x t => by_cases hc : (c = '.' || c = '!' || c = '?') = true <;>
        simp [hc]

theorem splitSent_append :
    ∀ (s rest : List Char), (∀ c ∈ s, (c = '.' || c = '!' || c = '?') = false) →
      splitSent (s ++ '.' :: rest) = s :: splitSent rest
  | [], rest, _ => by
    show splitSent ('.' :: rest) = [] :: splitSent rest
    rw [splitSent_cons_eq]
    cases h : splitSent rest with
    | nil => exact absurd h (splitSent_ne_nil rest)
    | cons x t => simp
  | c :: s, rest, h => by
    have hc : (c = '.' || c = '!' || c = '?') = false := h c (by simp)
    have ih := splitSent_append s rest fun x hx => h x (by simp [hx])
    show splitSent (c :: (s ++ '.' :: rest)) = (c :: s) :: splitSent rest
    rw [splitSent_cons_eq, ih]
    simp [hc]

/-- The C6 counterexample input: five sentences of exactly 2000 characters
each. -/
def c6input : List Char :=
  List.replicate 2000 'a' ++ '.' ::
    (List.replicate 2000 'a' ++ '.' ::
      (List.replicate 2000 'a' ++ '.' ::
        (List.replicate 2000 'a' ++ '.' ::
          (List.replicate 2000 'a' ++ '.' :: []))))

theorem c6_repA_noterm :
    ∀ c ∈ List.replicate 2000 'a', (c = '.' || c = '!' || c = '?') = false := by
  intro c hc
  rw [List.eq_of_mem_replicate hc]
  decide

theorem c6_split :
    splitSent c6input =
      [List.replicate 2000 'a', List.replicate 2000 'a',
       List.replicate 2000 'a', List.replicate 2000 'a',
       List.replicate 2000 'a', []] := by
  unfold c6input
  rw [splitSent_append _ _ c6_repA_noterm, splitSent_append _ _ c6_repA_noterm,
    splitSent_append _ _ c6_repA_noterm, splitSent_append _ _ c6_repA_noterm,
    splitSent_append _ _ c6_repA_noterm]
  rfl

theorem c6_strip_repA :
    pyStrip (List.replicate 2000 'a') = List.replicate 2000 'a' := by
  refine pyStrip_eq_self_all fun c hc => ?_
  rw [List.eq_of_mem_replicate hc]
  decide

theorem c6_repA_ne_nil : List.replicate 2000 'a' ≠ [] := by
  intro h
  have h2 : (List.replicate 2000 'a').length = ([] : List Char).length :=
    congrArg List.length h
  rw [List.length_replicate] at h2
  exact absurd h2 (by decide)

theorem chunkLoop_nil_eq (maxSize : Nat) (cur : List Char) :
    chunkLoop maxSize [] cur = if cur = [] then [] else [pyStrip cur] := rfl

theorem chunkLoop_cons_eq (maxSize : Nat) (s : List Char)
    (rest : List (List Char)) (cur : List Char) :
    chunkLoop maxSize (s :: rest) cur =
      if pyStrip s = [] then chunkLoop maxSize rest cur
      else if maxSize < cur.length + (pyStrip s).length then
        (if cur = [] then [] else [pyStrip cur]) ++
          chunkLoop maxSize rest (pyStrip s)
      else chunkLoop maxSize rest
        (if cur = [] then pyStrip s else cur ++ ' ' :: pyStrip s) := rfl

theorem c6_strip_ne_nil : pyStrip (List.replicate 2000 'a') ≠ [] := by
  rw [c6_strip_repA]
  exact c6_repA_ne_nil

theorem c6_chunk_step (rest : List (List Char)) :
    chunkLoop 2000 (List.replicate 2000 'a' :: rest) (List.replicate 2000 'a') =
      List.replicate 2000 'a' ::
        chunkLoop 2000 rest (List.replicate 2000 'a') := by
  rw [chunkLoop_cons_eq, if_neg c6_strip_ne_nil]
  rw [if_pos (show 2000 < (List.replicate 2000 'a').length +
      (pyStrip (List.replicate 2000 'a')).length by
    rw [c6_strip_repA, List.length_replicate]
    omega)]
  rw [if_neg c6_repA_ne_nil, c6_strip_repA]
  rfl

theorem c6_chunks :
    chunkLoop 2000 (splitSent c6input) [] =
      [List.replicate 2000 'a', List.replicate 2000 'a',
       List.replicate 2000 'a', List.replicate 2000 'a',
       List.replicate 2000 'a'] := by
  rw [c6_split]
  rw [chunkLoop_cons_eq, if_neg c6_strip_ne_nil]
  rw [if_neg (show ¬(2000 < ([] : List Char).length +
      (pyStrip (List.replicate 2000 'a')).length) by
    rw [c6_strip_repA, List.length_replicate]
    simp)]
  rw [if_pos rfl, c6_strip_repA]
  rw [c6_chunk_step, c6_chunk_step, c6_chunk_step, c6_chunk_step]
  rw [chunkLoop_cons_eq,
    if_pos (show pyStrip ([] : List Char) = [] from rfl), chunkLoop_nil_eq,
    if_neg c6_repA_ne_nil, c6_strip_repA]

/-- C6 counterexample: five sentences of exactly 2000 characters produce
five chunks of 2000 characters whose `\n\n`-join is 10008 characters long,
exceeding `max_chunks * max_chunk_size = 10000` although no sentence is
oversized (total oversized excess 0). -/
theorem c6_counterexample :
    5 * 2000 + oversizedExcess 2000 c6input <
      (chunkContent 2000 c6input).length := by
  have hex : oversizedExcess 2000 c6input = 0 := by
    unfold oversizedExcess
    rw [c6_split]
    simp only [List.map_cons, List.map_nil, c6_strip_repA,
      List.length_replicate]
    decide
  have hlen : (chunkContent 2000 c6input).length = 10008 := by
    unfold chunkContent
    rw [c6_chunks, List.take_of_length_le (Nat.le_refl 5), joinChunks_length]
    simp only [List.map_cons, List.map_nil, List.length_replicate,
      List.sum_cons, List.sum_nil, List.length_cons, List.length_nil]
    omega
  rw [hex, hlen]
  omega

/-!
### Batched answer generation (`ai_generator.py`)
-/

/-- An entry of `questions_batch` (ai_generator.py / app.py). -/
structure BatchQ where
  question : String
  question_number : Nat
  deriving Repr, DecidableEq

/-- The record `{"question", "answer", "question_number"}` the generator
returns per question. -/
structure AnswerRec where
  question : String
  answer : String
  question_number : Nat
  deriving Repr, DecidableEq

/-- Digit string to integer (`int(...)` on the regex group). -/
def digitsToNat (ds : List Char) : Nat :=
  ds.foldl (fun n c => n * 10 + (c.toNat - 48)) 0

/-- Match `ANSWER\s+(\d+):` (case-insensitive) at the head of the list,
returning the captured number and the remainder after the colon. -/
def matchMarker (l : List Char) : Option (Nat × List Char) :=
  if (l.take 6).map pyLower = "answer".toList then
    let rest := l.drop 6
    let ws := rest.takeWhile pyWs
    if ws = [] then none
    else
      let rest2 := rest.drop ws.length
      let ds := rest2.takeWhile Char.isDigit
      if ds = [] then none
      else
        match rest2.drop ds.length with
        | ':' :: rest3 => some (digitsToNat ds, rest3)
        | _ => none
  else none

/-- `re.split(r'ANSWER\s+(\d+):', response_text, flags=re.IGNORECASE)`
reshaped as (preamble, [(ordinal, following text)]): left-to-right
non-overlapping matches, each body running to the next marker.  The fuel is
the input length; every step consumes at least one character. -/
def markerSplit : Nat → List Char → List Char × List (Nat × List Char)
  | 0, l => (l, [])
  | fuel + 1, l =>
    match l with
    | [] => ([], [])
    | c :: rest =>
      match matchMarker (c :: rest) with
      | some (n, after) =>
        let p := markerSplit fuel after
        ([], (n, p.1) :: p.2)
      | none =>
        let p := markerSplit fuel rest
        (c :: p.1, p.2)

/-- The `(question_number, answer_text)` pairs the split produces. -/
def pyMarkerPairs (l : List Char) : List (Nat × List Char) :=
  (markerSplit l.length l).2

/-- The marker pass of `_parse_multi_question_response` (ai_generator.py
449-464): for each pair, append a record for the first batch entry with the
matching ordinal, skipping pairs that match no entry. -/
def firstPassAns (batch : List BatchQ) : List (Nat × List Char) → List AnswerRec
  | [] => []
  | (n, t) :: rest =>
    match batch.find? (fun q => q.question_number == n) with
    | some q => ⟨q.question, String.mk (pyStrip t), n⟩ :: firstPassAns batch rest
    | none => firstPassAns batch rest

/-- Python `response_text.split('\n\n')`. -/
def splitNN : List Char → List (List Char)
  | [] => [[]]
  | '\n' :: '\n' :: rest => [] :: splitNN rest
  | c :: rest =>
    match splitNN rest with
    | [] => [[c]]
    | h :: t => (c :: h) :: t

/-- The fallback loop of `_parse_multi_question_response` (ai_generator.py
466-484): walk the batch with a positional section index and append a record
for each ordinal not already answered. -/
def fallbackAns (sections : List (List Char)) :
    Nat → List AnswerRec → List BatchQ → List AnswerRec
  | _, acc, [] => acc
  | i, acc, q :: rest =>
    let t := if i < sections.length
      then String.mk (pyStrip (sections.getD i []))
      else "Answer extraction failed. Please try regenerating."
    let acc' := if acc.any (fun a => a.question_number == q.question_number)
      then acc
      else acc ++ [⟨q.question, t, q.question_number⟩]
    fallbackAns sections (i + 1) acc' rest

/-- `_parse_multi_question_response` (ai_generator.py 439-486). -/
def parseMultiQuestionResponse (response : List Char) (batch : List BatchQ) :
    List AnswerRec :=
  let answers := firstPassAns batch (pyMarkerPairs response)
  if answers.length = batch.length then answers
  else fallbackAns (splitNN response) 0 answers batch

/-- Outcome of one backend call in the retry loop. -/
inductive GenOutcome
  | success (text : String)
  | failure (msg : String)

/-- The error classification of `generate_multi_question_answer`
(ai_generator.py 124-149), applied to the lowered `str(e)` in source order:
server (500/internal), rate limit (rate limit/quota), auth
(authentication/api key), otherwise unclassified. -/
inductive ErrClass
  | server
  | rateLimit
  | auth
  | other
  deriving Repr, DecidableEq

/-- Substring test on strings (Python `"..." in error_msg`). -/
def containsStr (pat s : String) : Bool :=
  containsSub pat.toList s.toList

/-- Lowercase a string (`str(e).lower()`). -/
def lowerStr (s : String) : String :=
  String.mk (s.toList.map pyLower)

/-- Classify an exception message exactly as the `elif` chain does. -/
def classifyError (msg : String) : ErrClass :=
  let m := lowerStr msg
  if containsStr "500" m || containsStr "internal" m then .server
  else if containsStr "rate limit" m || containsStr "quota" m then .rateLimit
  else if containsStr "authentication" m || containsStr "api key" m then .auth
  else .other

/-- One error record per question of the batch. -/
def errRecords (batch : List BatchQ) (msg : String) : List AnswerRec :=
  batch.map fun q => ⟨q.question, msg, q.question_number⟩

/-- The terminal error message of the server branch. -/
def serverErrMsg : String :=
  "Google's AI service is temporarily unavailable due to server issues. Please try generating answers again in a few minutes."

/-- The terminal error message of the rate-limit branch. -/
def rateErrMsg : String :=
  "API rate limit exceeded. Please wait a few minutes before trying again."

/-- The error message of the authentication branch. -/
def authErrMsg : String :=
  "API authentication failed. Please verify your Gemini API key is valid and has sufficient quota."

/-- The session-cap message (`max_requests_per_session = 60`). -/
def limitMsg : String :=
  "Session request limit reached (60). Please restart the app to continue."

/-- The `for attempt in range(max_retries)` loop (ai_generator.py 92-155)
over the list of remaining attempt indices; `rest ≠ []` is exactly
`attempt < max_retries - 1`.  The second component counts backend calls. -/
def attemptLoop (backend : Nat → GenOutcome) (batch : List BatchQ) :
    List Nat → List AnswerRec × Nat
  | [] => (errRecords batch "Unable to generate answer due to unexpected error.", 0)
  | attempt :: rest =>
    match backend attempt with
    | .success text => (parseMultiQuestionResponse text.toList batch, 1)
    | .failure e =>
      match classifyError e with
      | .server =>
        if rest ≠ [] then
          let p := attemptLoop backend batch rest
          (p.1, p.2 + 1)
        else (errRecords batch serverErrMsg, 1)
      | .rateLimit =>
        if rest ≠ [] then
          let p := attemptLoop backend batch rest
          (p.1, p.2 + 1)
        else (errRecords batch rateErrMsg, 1)
      | .auth => (errRecords batch authErrMsg, 1)
      | .other =>
        if rest ≠ [] then
          let p := attemptLoop backend batch rest
          (p.1, p.2 + 1)
        else (errRecords batch ("API error after 3 attempts: " ++ e), 1)

/-- `generate_multi_question_answer` (ai_generator.py 69-155): session cap
short-circuit, then at most `max_retries = 3` attempts. -/
def generateMultiQuestionAnswer (backend : Nat → GenOutcome)
    (requestCount : Nat) (batch : List BatchQ) : List AnswerRec × Nat :=
  if 60 ≤ requestCount then (errRecords batch limitMsg, 0)
  else attemptLoop backend batch [0, 1, 2]

theorem attemptLoop_calls_le (backend : Nat → GenOutcome) (batch : List BatchQ) :
    ∀ attempts : List Nat,
      (attemptLoop backend batch attempts).2 ≤ attempts.length
  | [] => by simp [attemptLoop]
  | attempt :: rest => by
    have ih := attemptLoop_calls_le backend batch rest
    unfold attemptLoop
    cases hbk : backend attempt with
    | success text => simp
    | failure e =>
      show (match classifyError e with
        | ErrClass.server =>
            if rest ≠ [] then ((attemptLoop backend batch rest).1,
              (attemptLoop backend batch rest).2 + 1)
            else (errRecords batch serverErrMsg, 1)
        | ErrClass.rateLimit =>
            if rest ≠ [] then ((attemptLoop backend batch rest).1,
              (attemptLoop backend batch rest).2 + 1)
            else (errRecords batch rateErrMsg, 1)
        | ErrClass.auth => (errRecords batch authErrMsg, 1)
        | ErrClass.other =>
            if rest ≠ [] then ((attemptLoop backend batch rest).1,
              (attemptLoop backend batch rest).2 + 1)
            else (errRecords batch ("API error after 3 attempts: " ++ e),
              1)).2 ≤ (attempt :: rest).length
      cases hc : classifyError e with
      | auth => simp
      | server =>
        by_cases hr : rest = []
        · simp [hr]
        · simp only [hr, ne_eq, not_false_eq_true, if_true, List.length_cons]
          omega
      | rateLimit =>
        by_cases hr : rest = []
        · simp [hr]
        · simp only [hr, ne_eq, not_false_eq_true, if_true, List.length_cons]
          omega
      | other =>
        by_cases hr : rest = []
        · simp [hr]
        · simp only [hr, ne_eq, not_false_eq_true, if_true, List.length_cons]
          omega

/-- C9 (corrected): the generation loop makes at most 3 backend calls; an
authentication-classified first failure is never retried — it immediately
yields one auth-error record per question after a single call; and any retry
(two or more calls) can only follow a first failure that was NOT
authentication-classified.  The spec's stronger "retries only for
transient-classified (5xx / rate-limit) failures" is false: the unmatched
`else` branch also retries unclassified errors (see counterexample). -/
theorem c9_retry_policy (backend : Nat → GenOutcome) (batch : List BatchQ)
    (requestCount : Nat) :
    (generateMultiQuestionAnswer backend requestCount batch).2 ≤ 3 ∧
    (requestCount < 60 → ∀ e, backend 0 = .failure e →
      classifyError e = .auth →
      generateMultiQuestionAnswer backend requestCount batch =
        (errRecords batch authErrMsg, 1)) ∧
    (requestCount < 60 →
      2 ≤ (generateMultiQuestionAnswer backend requestCount batch).2 →
      ∃ e, backend 0 = .failure e ∧ classifyError e ≠ .auth) := by
  refine ⟨?_, ?_, ?_⟩
  · unfold generateMultiQuestionAnswer
    by_cases h : 60 ≤ requestCount
    · simp [h]
    · rw [if_neg h]
      exact attemptLoop_calls_le backend batch [0, 1, 2]
  · intro hrc e hb hc
    unfold generateMultiQuestionAnswer
    rw [if_neg (by omega)]
    show attemptLoop backend batch [0, 1, 2] = _
    unfold attemptLoop
    rw [hb]
    show (match classifyError e with
      | ErrClass.server => ((attemptLoop backend batch [1, 2]).1,
          (attemptLoop backend batch [1, 2]).2 + 1)
      | ErrClass.rateLimit => ((attemptLoop backend batch [1, 2]).1,
          (attemptLoop backend batch [1, 2]).2 + 1)
      | ErrClass.auth => (errRecords batch authErrMsg, 1)
      | ErrClass.other => ((attemptLoop backend batch [1, 2]).1,
          (attemptLoop backend batch [1, 2]).2 + 1)) =
      (errRecords batch authErrMsg, 1)
    rw [hc]
  · intro hrc hcalls
    unfold generateMultiQuestionAnswer at hcalls
    rw [if_neg (by omega)] at hcalls
    rw [show (attemptLoop backend batch [0, 1, 2]).2 =
        (match backend 0 with
         | GenOutcome.success text =>
             (parseMultiQuestionResponse text.toList batch, 1)
         | GenOutcome.failure e =>
           match classifyError e with
           | ErrClass.server => ((attemptLoop backend batch [1, 2]).1,
               (attemptLoop backend batch [1, 2]).2 + 1)
           | ErrClass.rateLimit => ((attemptLoop backend batch [1, 2]).1,
               (attemptLoop backend batch [1, 2]).2 + 1)
           | ErrClass.auth => (errRecords batch authErrMsg, 1)
           | ErrClass.other => ((attemptLoop backend batch [1, 2]).1,
               (attemptLoop backend batch [1, 2]).2 + 1)).2 from rfl] at hcalls
    cases hbk : backend 0 with
    | success text =>
      rw [hbk] at hcalls
      simp at hcalls
    | failure e =>
      rw [hbk] at hcalls
      refine ⟨e, rfl, ?_⟩
      intro hauth
      have hcalls2 : 2 ≤ (match classifyError e with
        | ErrClass.server => ((attemptLoop backend batch [1, 2]).1,
            (attemptLoop backend batch [1, 2]).2 + 1)
        | ErrClass.rateLimit => ((attemptLoop backend batch [1, 2]).1,
            (attemptLoop backend batch [1, 2]).2 + 1)
        | ErrClass.auth => (errRecords batch authErrMsg, 1)
        | ErrClass.other => ((attemptLoop backend batch [1, 2]).1,
            (attemptLoop backend batch [1, 2]).2 + 1)).2 := hcalls
      rw [hauth] at hcalls2
      simp at hcalls2

/-- Witness for C9: an authentication failure on the first attempt produces
the auth error records after exactly one call. -/
theorem c9_retry_policy_witness :
    generateMultiQuestionAnswer
        (fun _ => GenOutcome.failure "invalid authentication credentials") 0
        [⟨"Define a stack", 1⟩] =
      (errRecords [⟨"Define a stack", 1⟩] authErrMsg, 1) ∧
    (generateMultiQuestionAnswer
        (fun _ => GenOutcome.failure "invalid authentication credentials") 0
        [⟨"Define a stack", 1⟩]).2 ≤ 3 :=
  ⟨(c9_retry_policy
      (fun _ => GenOutcome.failure "invalid authentication credentials")
      [⟨"Define a stack", 1⟩] 0).2.1 (by decide)
      "invalid authentication credentials" rfl (by decide),
   (c9_retry_policy
      (fun _ => GenOutcome.failure "invalid authentication credentials")
      [⟨"Define a stack", 1⟩] 0).1⟩

/-- C9 counterexample: an error that is neither 5xx/rate-limit-classified
nor auth-classified ("connection reset by peer" is `other`) is still retried
— the loop performs all 3 attempts — refuting "retries are performed only
for transient-classified (server 5xx / rate-limit) failures". -/
theorem c9_counterexample :
    classifyError "connection reset by peer" = ErrClass.other ∧
    (generateMultiQuestionAnswer
        (fun _ => GenOutcome.failure "connection reset by peer") 0
        [⟨"Define a stack", 1⟩]).2 = 3 := by
  constructor
  · decide
  · rfl

/-- Number of returned records carrying a given ordinal. -/
def recCount (answers : List AnswerRec) (n : Nat) : Nat :=
  (answers.map AnswerRec.question_number).count n

theorem firstPassAns_cons_none (batch : List BatchQ) (n : Nat) (t : List Char)
    (rest : List (Nat × List Char))
    (h : batch.find? (fun q => q.question_number == n) = none) :
    firstPassAns batch ((n, t) :: rest) = firstPassAns batch rest := by
  conv_lhs => unfold firstPassAns
  rw [h]

theorem firstPassAns_cons_some (batch : List BatchQ) (n : Nat) (t : List Char)
    (rest : List (Nat × List Char)) (q : BatchQ)
    (h : batch.find? (fun x => x.question_number == n) = some q) :
    firstPassAns batch ((n, t) :: rest) =
      ⟨q.question, String.mk (pyStrip t), n⟩ :: firstPassAns batch rest := by
  conv_lhs => unfold firstPassAns
  rw [h]

theorem firstPass_mem_batch (batch : List BatchQ) :
    ∀ (pairs : List (Nat × List Char)) (a : AnswerRec),
      a ∈ firstPassAns batch pairs →
      ∃ q ∈ batch, a.question_number = q.question_number
  | [], a, h => absurd h (List.not_mem_nil a)
  | (n, t) :: rest, a, h => by
    cases hf : batch.find? (fun x => x.question_number == n) with
    | none =>
      rw [firstPassAns_cons_none batch n t rest hf] at h
      exact firstPass_mem_batch batch rest a h
    | some q =>
      rw [firstPassAns_cons_some batch n t rest q hf] at h
      rcases List.mem_cons.mp h with rfl | h'
      · refine ⟨q, List.mem_of_find?_eq_some hf, ?_⟩
        have hbeq := List.find?_some hf
        simp only [beq_iff_eq] at hbeq
        exact hbeq.symm
      · exact firstPass_mem_batch batch rest a h'

theorem firstPass_count_le (batch : List BatchQ) :
    ∀ (pairs : List (Nat × List Char)) (n : Nat),
      recCount (firstPassAns batch pairs) n ≤ (pairs.map Prod.fst).count n
  | [], n => by simp [firstPassAns, recCount]
  | (m, t) :: rest, n => by
    have ih := firstPass_count_le batch rest n
    cases hf : batch.find? (fun x => x.question_number == m) with
    | none =>
      rw [firstPassAns_cons_none batch m t rest hf]
      simp only [List.map_cons, List.count_cons]
      omega
    | some q =>
      rw [firstPassAns_cons_some batch m t rest q hf]
      unfold recCount at ih ⊢
      simp only [List.map_cons, List.count_cons]
      omega

theorem fallbackAns_cons (sections : List (List Char)) (i : Nat)
    (acc : List AnswerRec) (q : BatchQ) (rest : List BatchQ) :
    fallbackAns sections i acc (q :: rest) =
      fallbackAns sections (i + 1)
        (if acc.any (fun a => a.question_number == q.question_number) then acc
         else acc ++ [⟨q.question,
           (if i < sections.length then String.mk (pyStrip (sections.getD i []))
            else "Answer extraction failed. Please try regenerating."),
           q.question_number⟩]) rest := rfl

theorem fallback_count_not_mem (sections : List (List Char)) :
    ∀ (batchRest : List BatchQ) (i : Nat) (acc : List AnswerRec) (n : Nat),
      n ∉ batchRest.map BatchQ.question_number →
      recCount (fallbackAns sections i acc batchRest) n = recCount acc n
  | [], _, _, _, _ => rfl
  | q :: rest, i, acc, n, hn => by
    have hn' : n ∉ rest.map BatchQ.question_number := by
      intro h
      exact hn (by simp [h])
    have hne : n ≠ q.question_number := by
      intro h
      exact hn (by simp [h])
    rw [fallbackAns_cons]
    rw [fallback_count_not_mem sections rest (i + 1) _ n hn']
    by_cases hany : acc.any (fun a => a.question_number == q.question_number) = true
    · rw [if_pos hany]
    · rw [if_neg hany]
      unfold recCount
      rw [List.map_append, List.count_append]
      simp [hne]

theorem fallback_count_mem (sections : List (List Char)) :
    ∀ (batchRest : List BatchQ) (i : Nat) (acc : List AnswerRec),
      (batchRest.map BatchQ.question_number).Nodup →
      ∀ q ∈ batchRest, recCount acc q.question_number ≤ 1 →
      recCount (fallbackAns sections i acc batchRest) q.question_number = 1
  | [], _, _, _, q, hq, _ => absurd hq (List.not_mem_nil q)
  | q0 :: rest, i, acc, hnd, q, hq, hacc => by
    have hnotin : q0.question_number ∉ rest.map BatchQ.question_number :=
      (List.nodup_cons.mp (by simpa using hnd)).1
    have hndrest : (rest.map BatchQ.question_number).Nodup :=
      (List.nodup_cons.mp (by simpa using hnd)).2
    rw [fallbackAns_cons]
    rcases List.mem_cons.mp hq with rfl | hq'
    · have hcnt' : recCount
          (if acc.any (fun a => a.question_number == q.question_number) then acc
           else acc ++ [⟨q.question,
             (if i < sections.length
              then String.mk (pyStrip (sections.getD i []))
              else "Answer extraction failed. Please try regenerating."),
             q.question_number⟩]) q.question_number = 1 := by
        by_cases hany : acc.any
            (fun a => a.question_number == q.question_number) = true
        · rw [if_pos hany]
          rcases List.any_eq_true.mp hany with ⟨a, ha, hab⟩
          simp only [beq_iff_eq] at hab
          have hmem : q.question_number ∈ acc.map AnswerRec.question_number :=
            List.mem_map.mpr ⟨a, ha, hab⟩
          have h1 : 0 < recCount acc q.question_number := by
            unfold recCount
            exact List.count_pos_iff.mpr hmem
          omega
        · rw [if_neg hany]
          have hnotmem : q.question_number ∉ acc.map AnswerRec.question_number := by
            intro hmem
            rcases List.mem_map.mp hmem with ⟨a, ha, hab⟩
            exact hany (List.any_eq_true.mpr ⟨a, ha, by simp [hab]⟩)
          unfold recCount
          rw [List.map_append, List.count_append,
            List.count_eq_zero.mpr hnotmem]
          simp
      rw [fallback_count_not_mem sections rest (i + 1) _ _ hnotin]
      exact hcnt'
    · have hne : q.question_number ≠ q0.question_number := by
        intro h
        exact hnotin (h ▸ List.mem_map.mpr ⟨q, hq', rfl⟩)
      have hacc' : recCount
          (if acc.any (fun a => a.question_number == q0.question_number) then acc
           else acc ++ [⟨q0.question,
             (if i < sections.length
              then String.mk (pyStrip (sections.getD i []))
              else "Answer extraction failed. Please try regenerating."),
             q0.question_number⟩]) q.question_number ≤ 1 := by
        by_cases hany : acc.any
            (fun a => a.question_number == q0.question_number) = true
        · rw [if_pos hany]; exact hacc
        · rw [if_neg hany]
          unfold recCount at hacc ⊢
          rw [List.map_append, List.count_append]
          simp [hne]
          exact hacc
      exact fallback_count_mem sections rest (i + 1) _ hndrest q hq' hacc'

theorem fallback_mem (sections : List (List Char)) :
    ∀ (batchRest : List BatchQ) (i : Nat) (acc : List AnswerRec)
      (a : AnswerRec), a ∈ fallbackAns sections i acc batchRest →
      a ∈ acc ∨ ∃ q ∈ batchRest, a.question_number = q.question_number
  | [], _, acc, a, h => Or.inl h
  | q0 :: rest, i, acc, a, h => by
    rw [fallbackAns_cons] at h
    rcases fallback_mem sections rest (i + 1) _ a h with h' | h'
    · by_cases hany : acc.any
          (fun x => x.question_number == q0.question_number) = true
      · rw [if_pos hany] at h'
        exact Or.inl h'
      · rw [if_neg hany] at h'
        rcases List.mem_append.mp h' with h'' | h''
        · exact Or.inl h''
        · rcases List.mem_singleton.mp h'' with rfl
          exact Or.inr ⟨q0, by simp, rfl⟩
    · rcases h' with ⟨q, hq, heq⟩
      exact Or.inr ⟨q, by simp [hq], heq⟩

/-- C7 (corrected): provided the batch ordinals are distinct and each
ordinal's `ANSWER n:` marker occurs at most once in the response,
batch-response parsing returns exactly one AnswerRecord per input ordinal
(positional fallback fills the missing ones on a count mismatch) and every
returned record carries one of the input ordinals.  Without the at-most-once
proviso the claim is false — duplicated markers can silently drop an ordinal
and duplicate another — and a returned answer_text can be empty when a
marker is followed by empty text (see the counterexample). -/
theorem c7_one_record_per_ordinal (response : List Char) (batch : List BatchQ)
    (hnd : (batch.map BatchQ.question_number).Nodup)
    (hmk : ∀ q ∈ batch,
      ((pyMarkerPairs response).map Prod.fst).count q.question_number ≤ 1) :
    (∀ q ∈ batch, recCount (parseMultiQuestionResponse response batch)
      q.question_number = 1) ∧
    (∀ a ∈ parseMultiQuestionResponse response batch,
      ∃ q ∈ batch, a.question_number = q.question_number) := by
  have hle : ∀ q ∈ batch,
      recCount (firstPassAns batch (pyMarkerPairs response))
        q.question_number ≤ 1 :=
    fun q hq => Nat.le_trans (firstPass_count_le batch _ _) (hmk q hq)
  unfold parseMultiQuestionResponse
  by_cases hlen :
      (firstPassAns batch (pyMarkerPairs response)).length = batch.length
  · rw [if_pos hlen]
    constructor
    · have hsub : (firstPassAns batch (pyMarkerPairs response)).map
          AnswerRec.question_number ⊆ batch.map BatchQ.question_number := by
        intro x hx
        rcases List.mem_map.mp hx with ⟨a, ha, rfl⟩
        rcases firstPass_mem_batch batch _ a ha with ⟨q, hq, heq⟩
        rw [heq]
        exact List.mem_map.mpr ⟨q, hq, rfl⟩
      have hnl : ((firstPassAns batch (pyMarkerPairs response)).map
          AnswerRec.question_number).Nodup := by
        rw [List.nodup_iff_count_le_one]
        intro x
        by_cases hx : x ∈ (firstPassAns batch (pyMarkerPairs response)).map
            AnswerRec.question_number
        · rcases List.mem_map.mp (hsub hx) with ⟨q, hq, rfl⟩
          exact hle q hq
        · rw [List.count_eq_zero.mpr hx]
          omega
      have hlength : (batch.map BatchQ.question_number).length ≤
          ((firstPassAns batch (pyMarkerPairs response)).map
            AnswerRec.question_number).length := by
        rw [List.length_map, List.length_map, hlen]
      have hperm := (hnl.subperm hsub).perm_of_length_le hlength
      intro q hq
      have hqS : q.question_number ∈ batch.map BatchQ.question_number :=
        List.mem_map.mpr ⟨q, hq, rfl⟩
      have h1 : (batch.map BatchQ.question_number).count q.question_number ≤ 1 :=
        List.nodup_iff_count_le_one.mp hnd _
      have h2 : 0 < (batch.map BatchQ.question_number).count q.question_number :=
        List.count_pos_iff.mpr hqS
      have h3 := hperm.count_eq q.question_number
      unfold recCount
      omega
    · intro a ha
      exact firstPass_mem_batch batch _ a ha
  · rw [if_neg hlen]
    constructor
    · intro q hq
      exact fallback_count_mem (splitNN response) batch 0 _ hnd q hq (hle q hq)
    · intro a ha
      rcases fallback_mem (splitNN response) batch 0 _ a ha with h | h
      · exact firstPass_mem_batch batch _ a h
      · exact h

/-- Witness for C7 at a well-formed two-marker response. -/
theorem c7_one_record_per_ordinal_witness :
    (∀ q ∈ ([⟨"q1", 1⟩, ⟨"q2", 2⟩] : List BatchQ),
      recCount (parseMultiQuestionResponse
        "ANSWER 1: foo ANSWER 2: bar".toList [⟨"q1", 1⟩, ⟨"q2", 2⟩])
        q.question_number = 1) ∧
    (∀ a ∈ parseMultiQuestionResponse
        "ANSWER 1: foo ANSWER 2: bar".toList [⟨"q1", 1⟩, ⟨"q2", 2⟩],
      ∃ q ∈ ([⟨"q1", 1⟩, ⟨"q2", 2⟩] : List BatchQ),
        a.question_number = q.question_number) :=
  c7_one_record_per_ordinal "ANSWER 1: foo ANSWER 2: bar".toList
    [⟨"q1", 1⟩, ⟨"q2", 2⟩] (by decide) (by decide)

/-- C7 counterexample: a response whose `ANSWER 1:` marker appears twice
makes the marker pass produce two records, so the count check
`len(answers) == len(questions_batch)` passes and the fallback never runs:
ordinal 2 is silently dropped, ordinal 1 is duplicated, and one returned
answer_text is empty. -/
theorem c7_counterexample :
    parseMultiQuestionResponse "ANSWER 1:ANSWER 1: x".toList
        ([⟨"q1", 1⟩, ⟨"q2", 2⟩] : List BatchQ) =
      [⟨"q1", "", 1⟩, ⟨"q1", "x", 1⟩] ∧
    recCount (parseMultiQuestionResponse "ANSWER 1:ANSWER 1: x".toList
      [⟨"q1", 1⟩, ⟨"q2", 2⟩]) 2 = 0 ∧
    recCount (parseMultiQuestionResponse "ANSWER 1:ANSWER 1: x".toList
      [⟨"q1", 1⟩, ⟨"q2", 2⟩]) 1 = 2 := by
  refine ⟨by decide, by decide, by decide⟩

/-!
### Markup normalisation (`pdf_compiler.py`: `_format_answer_text`,
its section classifiers and `_enhance_text_formatting`)
-/

/-- The encoding fixes of `_smart_text_preprocessing` (pdf_compiler.py
695-697): smart quotes, smart apostrophes and dashes, each a
single-character `str.replace`. -/
def fixEncoding (c : Char) : Char :=
  if c = '“' || c = '”' then '"'
  else if c = '‘' || c = '’' then '\''
  else if c = '–' || c = '—' then '-'
  else c

/-- `re.sub(r' +', ' ', text)`: collapse runs of spaces (only spaces). -/
def collapseSpacesAux : Bool → List Char → List Char
  | _, [] => []
  | inRun, c :: rest =>
    if c = ' ' then
      if inRun then collapseSpacesAux true rest
      else ' ' :: collapseSpacesAux true rest
    else c :: collapseSpacesAux false rest

/-- `re.sub(r'\n\s*\n\s*\n+', '\n\n', text)`: a whitespace span that starts
at a newline and contains at least three newlines is replaced, up to its
last newline, by a blank line.  Fuel is the input length. -/
def collapseNl : Nat → List Char → List Char
  | 0, s => s
  | _ + 1, [] => []
  | fuel + 1, c :: rest =>
    if c = '\n' then
      let run := (c :: rest).takeWhile pyWs
      if 3 ≤ run.count '\n' then
        let keep := run.length - (run.reverse.takeWhile (fun d => d ≠ '\n')).length
        '\n' :: '\n' :: collapseNl fuel ((c :: rest).drop keep)
      else c :: collapseNl fuel rest
    else c :: collapseNl fuel rest

/-- `_smart_text_preprocessing` (pdf_compiler.py 691-703). -/
def smartTextPreprocessing (text : List Char) : List Char :=
  let t1 := text.map fixEncoding
  let t2 := collapseSpacesAux false t1
  let t3 := collapseNl t2.length t2
  pyStrip t3

/-- `\w` (ASCII): letters, digits, underscore. -/
def isWordChar (c : Char) : Bool :=
  asciiLetter c || c.isDigit || c = '_'

/-- Case-insensitive literal, continuation style. -/
def pLitCI (pat : List Char) (s : List Char) : Option (List Char) :=
  if (s.take pat.length).map pyLower = pat.map pyLower then
    some (s.drop pat.length)
  else none

/-- `\s*`. -/
def pWsStar (s : List Char) : Option (List Char) :=
  some (s.dropWhile pyWs)

/-- `\s+`. -/
def pWsPlus (s : List Char) : Option (List Char) :=
  let w := s.takeWhile pyWs
  if w = [] then none else some (s.drop w.length)

/-- `\w+`. -/
def pWordPlus (s : List Char) : Option (List Char) :=
  let w := s.takeWhile isWordChar
  if w = [] then none else some (s.drop w.length)

/-- A literal character. -/
def pChar (c : Char) (s : List Char) : Option (List Char) :=
  match s with
  | x :: rest => if x = c then some rest else none
  | [] => none

/-- `re.search pat text`: try the position matcher at every suffix. -/
def searchAny (m : List Char → Bool) : List Char → Bool
  | [] => m []
  | c :: rest => m (c :: rest) || searchAny m rest

/-- The thirteen `code_indicators` of `_is_code_section` (pdf_compiler.py
712-717), each hand-compiled; all searched with `re.IGNORECASE`. -/
def codeIndicatorAt (s : List Char) : Bool :=
  (pLitCI "def".toList s >>= pWsPlus >>= pWordPlus >>= pChar '(').isSome ||
  (pLitCI "function".toList s >>= pWsPlus >>= pWordPlus >>= pChar '(').isSome ||
  (pLitCI "class".toList s >>= pWsPlus >>= pWordPlus).isSome ||
  (pLitCI "import".toList s >>= pWsPlus >>= pWordPlus).isSome ||
  (pLitCI "#include".toList s).isSome ||
  (pChar '<' s >>= pWordPlus >>= pChar '>').isSome ||
  (pChar (Char.ofNat 123) s >>= pWsStar >>= pWordPlus).isSome ||
  (pLitCI "console.log".toList s).isSome ||
  (pLitCI "print(".toList s).isSome ||
  (pLitCI "select".toList s >>= pWsPlus).isSome ||
  (pLitCI "if".toList s >>= pWsStar >>= pChar '(').isSome ||
  (pLitCI "for".toList s >>= pWsStar >>= pChar '(').isSome ||
  (pLitCI "while".toList s >>= pWsStar >>= pChar '(').isSome

/-- `_is_code_section` (pdf_compiler.py 705-719); the `current_subject`
attribute always exists in the pipeline (set by `compile_answers_pdf`). -/
def isCodeSection (subject : String) (text : List Char) : Bool :=
  if ["computer", "programming", "software"].any
      (fun p => containsSub p.toList (subject.toList.map pyLower)) then
    searchAny codeIndicatorAt text
  else false

/-- Python `str.isupper` on ASCII: at least one letter and no lowercase. -/
def pyIsUpper (s : List Char) : Bool :=
  s.any asciiLetter && !(s.any Char.isLower)

/-- `_is_heading_section` (pdf_compiler.py 721-729). -/
def isHeadingSection (text : List Char) : Bool :=
  (decide (text.getLastD ' ' = ':') && decide (text.length < 100) &&
    !(text.contains '\n')) ||
  pyIsUpper text ||
  "####".toList.isPrefixOf text ||
  "###".toList.isPrefixOf text ||
  "##".toList.isPrefixOf text ||
  "#".toList.isPrefixOf text ||
  "DEFINITION".toList.isPrefixOf text ||
  "EXPLANATION".toList.isPrefixOf text ||
  "EXAMPLE".toList.isPrefixOf text ||
  "ANSWER".toList.isPrefixOf text ||
  "SOLUTION".toList.isPrefixOf text

/-- `re.match(r'^\d+\.', line)`. -/
def startsDigitsDot (l : List Char) : Bool :=
  let ds := l.takeWhile Char.isDigit
  decide (ds ≠ []) &&
    match l.drop ds.length with
    | '.' :: _ => true
    | _ => false

/-- `_is_list_section` (pdf_compiler.py 731-735). -/
def isListSection (text : List Char) : Bool :=
  let lines := splitNl text
  decide (1 < lines.length) &&
    lines.any fun line =>
      (match (pyStrip line).head? with
       | some c => c = '-' || c = '•' || c = '*'
       | none => false) ||
      startsDigitsDot (pyStrip line)

/-- The block kinds of the spec's Markup Normalizer.  `math` is included so
the spec's claimed Math classification can be stated; the dispatch of
`_format_answer_text` never produces it. -/
inductive SectionKind
  | code
  | heading
  | list
  | math
  | para
  deriving Repr, DecidableEq

/-- The `if/elif` dispatch of `_format_answer_text` (pdf_compiler.py
377-391): Code, then Heading, then List, else Paragraph — there is no Math
branch; `_is_math_formula` is never called in this pipeline. -/
def classifySection (subject : String) (text : List Char) : SectionKind :=
  if isCodeSection subject text then .code
  else if isHeadingSection text then .heading
  else if isListSection text then .list
  else .para

/-- `_is_math_formula` (pdf_compiler.py 839-848), dead code in the current
pipeline: LaTeX dollar markers, macro tokens, caret/underscore exponents,
`equation:`/`formula:` (all case-insensitive searches). -/
def isMathFormula (text : List Char) : Bool :=
  let low := text.map pyLower
  text.contains '$' ||
  containsSub "\\frac".toList low || containsSub "\\sqrt".toList low ||
  containsSub "\\sum".toList low || containsSub "\\int".toList low ||
  containsSub "\\alpha".toList low || containsSub "\\beta".toList low ||
  containsSub "\\gamma".toList low || containsSub "\\delta".toList low ||
  containsSub "\\pi".toList low || containsSub "\\theta".toList low ||
  containsSub "\\lambda".toList low || containsSub "\\mu".toList low ||
  containsSub "\\sigma".toList low || containsSub "\\phi".toList low ||
  containsSub "\\omega".toList low ||
  searchAny (fun s => (pChar '^' s >>= fun r =>
    match r with
    | c :: _ => if c.isDigit then some r else none
    | [] => none).isSome) text ||
  searchAny (fun s => (pChar '_' s >>= fun r =>
    match r with
    | c :: _ => if c.isDigit then some r else none
    | [] => none).isSome) text ||
  containsSub "equation:".toList low || containsSub "formula:".toList low

/-- `re.sub(r'<[^>]+>', '', text)`: remove every shortest `<...>` span with
a non-empty body (pdf_compiler.py 638).  Fuel is the input length. -/
def removeTags : Nat → List Char → List Char
  | 0, s => s
  | _ + 1, [] => []
  | fuel + 1, c :: rest =>
    if c = '<' then
      let body := rest.takeWhile (fun d => d ≠ '>')
      let rem := rest.drop body.length
      if decide (body ≠ []) && decide (rem ≠ []) then
        removeTags fuel (rem.drop 1)
      else c :: removeTags fuel rest
    else c :: removeTags fuel rest

/-- Python `str.replace(pat, rep)`: non-overlapping, left to right,
scanning resumes after each replacement.  Fuel is the input length. -/
def replaceSub (pat rep : List Char) : Nat → List Char → List Char
  | 0, s => s
  | _ + 1, [] => []
  | fuel + 1, c :: rest =>
    if decide (pat ≠ []) && pat.isPrefixOf (c :: rest) then
      rep ++ replaceSub pat rep fuel ((c :: rest).drop pat.length)
    else c :: replaceSub pat rep fuel rest

/-- `re.sub(r'^#+\s*', '', text)` (anchored, no MULTILINE). -/
def stripHashes (s : List Char) : List Char :=
  match s with
  | c :: rest =>
    if c = '#' then ((c :: rest).dropWhile (fun d => d = '#')).dropWhile pyWs
    else c :: rest
  | [] => []

/-- `re.sub` for a doubled emphasis marker `mm([^m]+)mm` replaced by the
group (pdf_compiler.py 646-647: `\*\*...\*\*` and `__...__`).  On a failed
match the scan advances one character.  Fuel is the input length. -/
def subDouble (m : Char) : Nat → List Char → List Char
  | 0, s => s
  | _ + 1, [] => []
  | fuel + 1, c :: rest =>
    if c = m then
      if rest.head? = some m then
        let run := rest.tail.takeWhile (fun d => d ≠ m)
        let rem := rest.tail.drop run.length
        if decide (run ≠ []) && [m, m].isPrefixOf rem then
          run ++ subDouble m fuel (rem.drop 2)
        else c :: subDouble m fuel rest
      else c :: subDouble m fuel rest
    else c :: subDouble m fuel rest

/-- `re.sub` for a single emphasis marker `m([^m]+)m` replaced by
`pre ++ group ++ post` (pdf_compiler.py 648-650: `\*...\*`, `_..._` with
empty wrappers, and the backtick pattern with bracket wrappers). -/
def subSingle (m : Char) (pre post : List Char) : Nat → List Char → List Char
  | 0, s => s
  | _ + 1, [] => []
  | fuel + 1, c :: rest =>
    if c = m then
      let run := rest.takeWhile (fun d => d ≠ m)
      let rem := rest.drop run.length
      if decide (run ≠ []) && rem.head? = some m then
        pre ++ run ++ post ++ subSingle m pre post fuel (rem.drop 1)
      else c :: subSingle m pre post fuel rest
    else c :: subSingle m pre post fuel rest

/-- `_enhance_text_formatting` (pdf_compiler.py 634-656): strip HTML tags,
unescape entities, drop heading hashes, remove bold and italic markers
keeping their inner text, bracket-wrap backtick code spans, collapse
whitespace, drop `<br>` markers. -/
def enhanceTextFormatting (text : List Char) : List Char :=
  let t1 := removeTags text.length text
  let t2 := replaceSub "&lt;".toList "<".toList t1.length t1
  let t3 := replaceSub "&gt;".toList ">".toList t2.length t2
  let t4 := replaceSub "&amp;".toList "&".toList t3.length t3
  let t5 := replaceSub "&quot;".toList "\"".toList t4.length t4
  let t6 := replaceSub "&nbsp;".toList " ".toList t5.length t5
  let t7 := stripHashes t6
  let t8 := subDouble '*' t7.length t7
  let t9 := subDouble '_' t8.length t8
  let t10 := subSingle '*' [] [] t9.length t9
  let t11 := subSingle '_' [] [] t10.length t10
  let t12 := subSingle (Char.ofNat 96) ['['] [']'] t11.length t11
  let t13 := pyStrip (collapseWsAux false t12)
  let t14 := replaceSub "<br>".toList " ".toList t13.length t13
  replaceSub "<br/>".toList " ".toList t14.length t14

/-- A flowable produced by the answer formatter: a styled paragraph, a code
table, or a spacer. -/
inductive PDFElem
  | paragraph (text : List Char) (style : String)
  | table (rows : List (List Char))
  | spacer (size : Nat)
  deriving Repr, DecidableEq

/-- `_format_heading` (pdf_compiler.py 789-795): drop leading hashes, drop
every colon, strip, enhance. -/
def formatHeading (text : List Char) : PDFElem :=
  let c1 := stripHashes text
  let c2 := pyStrip (c1.filter (fun d => d ≠ ':'))
  .paragraph (enhanceTextFormatting c2) "SectionHeading"

/-- `line.lstrip('-•*').strip()`. -/
def stripBullets (l : List Char) : List Char :=
  pyStrip (l.dropWhile (fun c => c = '-' || c = '•' || c = '*'))

/-- `_format_smart_list` (pdf_compiler.py 797-823): numbered lines are kept
raw, bulleted and plain lines are enhanced and given a bullet; each item is
followed by a small spacer. -/
def formatSmartList (text : List Char) : List PDFElem :=
  (splitNl text).flatMap fun line =>
    let l := pyStrip line
    if l = [] then []
    else if startsDigitsDot l then
      [.paragraph l "ListStyle", .spacer 4]
    else if match l.head? with
            | some c => c = '-' || c = '•' || c = '*'
            | none => false then
      [.paragraph ('•' :: ' ' :: enhanceTextFormatting (stripBullets l))
        "ListStyle", .spacer 4]
    else
      [.paragraph ('•' :: ' ' :: enhanceTextFormatting l) "ListStyle",
        .spacer 4]

/-- `_format_regular_paragraph` (pdf_compiler.py 825-837). -/
def formatRegularParagraph (text : List Char) : List PDFElem :=
  (splitNl text).flatMap fun line =>
    let l := pyStrip line
    if l = [] then []
    else [.paragraph (enhanceTextFormatting l) "AnswerStyle", .spacer 6]

/-- `line.replace('\t', '    ')`. -/
def expandTabs (l : List Char) : List Char :=
  l.flatMap fun c => if c = '\t' then "    ".toList else [c]

/-- `[clean_line[i:i+80] for i in range(0, len(clean_line), 80)]`. -/
def sliceChunks (w : Nat) : Nat → List Char → List (List Char)
  | _, [] => []
  | 0, s => [s]
  | fuel + 1, c :: rest => (c :: rest).take w :: sliceChunks w fuel ((c :: rest).drop w)

/-- `_format_smart_code_block` (pdf_compiler.py 737-787): one table row per
non-blank (possibly sliced) line, the table framed by spacers; colors and
table styling carry no text and are not modelled. -/
def formatSmartCodeBlock (text : List Char) : List PDFElem :=
  let codeLines := (splitNl text).flatMap fun line =>
    if pyStrip line = [] then []
    else
      let clean := expandTabs line
      if 80 < clean.length then sliceChunks 80 clean.length clean
      else [clean]
  if codeLines = [] then []
  else [.spacer 6, .table codeLines, .spacer 6]

/-- `_format_answer_text` (pdf_compiler.py 360-396): preprocess, split on
blank lines, classify each non-blank section (Code, Heading, List, else
Paragraph) and emit its flowables followed by a section spacer. -/
def formatAnswerText (subject : String) (answer : List Char) : List PDFElem :=
  let t := smartTextPreprocessing answer
  (splitNN t).flatMap fun sec =>
    let s := pyStrip sec
    if s = [] then []
    else
      (match classifySection subject s with
       | .code => formatSmartCodeBlock s
       | .heading => [formatHeading s]
       | .list => formatSmartList s
       | .math => []
       | .para => formatRegularParagraph s) ++ [.spacer 12]

/-- Non-spacer flowables are the content blocks of a formatted answer. -/
def isContentElem : PDFElem → Bool
  | .spacer _ => false
  | _ => true

/-- Number of content blocks (paragraphs and code tables). -/
def countBlocks (elems : List PDFElem) : Nat :=
  (elems.filter isContentElem).length

theorem alnum_not_ws {c : Char} (h : c.isAlphanum = true) : pyWs c = false := by
  cases hw : pyWs c with
  | false => rfl
  | true =>
    rcases pyWs_cases hw with h' | h' | h' | h' | h' | h' <;>
      (subst h'; exact absurd h (by decide))

theorem alnum_ne {c d : Char} (h : c.isAlphanum = true)
    (hd : d.isAlphanum = false) : c ≠ d := by
  intro he
  rw [he, hd] at h
  cases h

theorem removeTags_id :
    ∀ (fuel : Nat) (s : List Char), (∀ c ∈ s, c ≠ '<') →
      removeTags fuel s = s
  | 0, s, _ => rfl
  | fuel + 1, [], _ => rfl
  | fuel + 1, c :: rest, h => by
    unfold removeTags
    rw [if_neg (h c (by simp))]
    rw [removeTags_id fuel rest fun d hd => h d (by simp [hd])]

theorem replaceSub_id (p0 : Char) (pat' rep : List Char) :
    ∀ (fuel : Nat) (s : List Char), (∀ c ∈ s, c ≠ p0) →
      replaceSub (p0 :: pat') rep fuel s = s
  | 0, s, _ => rfl
  | fuel + 1, [], _ => rfl
  | fuel + 1, c :: rest, h => by
    unfold replaceSub
    have hpre : (p0 :: pat').isPrefixOf (c :: rest) = false := by
      simp [List.isPrefixOf]
      intro he
      exact absurd he.symm (h c (by simp))
    rw [hpre]
    simp only [Bool.and_false, Bool.false_eq_true, if_false]
    rw [replaceSub_id p0 pat' rep fuel rest fun d hd => h d (by simp [hd])]

theorem stripHashes_id {s : List Char} (h : ∀ c ∈ s.head?, c ≠ '#') :
    stripHashes s = s := by
  cases s with
  | nil => rfl
  | cons c rest =>
    show (if c = '#' then
        List.dropWhile pyWs (List.dropWhile (fun d => decide (d = '#')) (c :: rest))
      else c :: rest) = c :: rest
    rw [if_neg (h c rfl)]

theorem subDouble_nil (m : Char) : ∀ fuel, subDouble m fuel [] = []
  | 0 => rfl
  | _ + 1 => rfl

theorem subSingle_nil (m : Char) (pre post : List Char) :
    ∀ fuel, subSingle m pre post fuel [] = []
  | 0 => rfl
  | _ + 1 => rfl

theorem subDouble_id (m : Char) :
    ∀ (fuel : Nat) (s : List Char), (∀ c ∈ s, c ≠ m) →
      subDouble m fuel s = s
  | 0, s, _ => rfl
  | fuel + 1, [], _ => rfl
  | fuel + 1, c :: rest, h => by
    unfold subDouble
    rw [if_neg (h c (by simp))]
    rw [subDouble_id m fuel rest fun d hd => h d (by simp [hd])]

theorem subSingle_id (m : Char) (pre post : List Char) :
    ∀ (fuel : Nat) (s : List Char), (∀ c ∈ s, c ≠ m) →
      subSingle m pre post fuel s = s
  | 0, s, _ => rfl
  | fuel + 1, [], _ => rfl
  | fuel + 1, c :: rest, h => by
    unfold subSingle
    rw [if_neg (h c (by simp))]
    rw [subSingle_id m pre post fuel rest fun d hd => h d (by simp [hd])]

theorem subDouble_pair (m : Char) (fuel : Nat) (x rest : List Char)
    (hx : x ≠ []) (h : ∀ c ∈ x, c ≠ m) :
    subDouble m (fuel + 1) (m :: m :: (x ++ m :: m :: rest)) =
      x ++ subDouble m fuel rest := by
  conv_lhs => unfold subDouble
  rw [if_pos rfl]
  have hhd : (m :: (x ++ m :: m :: rest)).head? = some m := rfl
  rw [hhd, if_pos rfl]
  have htail : (m :: (x ++ m :: m :: rest)).tail = x ++ m :: m :: rest := rfl
  rw [htail]
  have hrun : (x ++ m :: m :: rest).takeWhile (fun d => d ≠ m) = x := by
    refine takeWhile_append_left x _ ?_ ?_
    · intro c hc
      simp [h c hc]
    · intro y hy
      cases hy
      simp
  rw [hrun]
  have hdrop : (x ++ m :: m :: rest).drop x.length = m :: m :: rest := by simp
  show (if (decide (x ≠ []) && [m, m].isPrefixOf ((x ++ m :: m :: rest).drop x.length)) = true
      then x ++ subDouble m fuel (((x ++ m :: m :: rest).drop x.length).drop 2)
      else m :: subDouble m fuel (m :: (x ++ m :: m :: rest))) = x ++ subDouble m fuel rest
  rw [hdrop]
  rw [if_pos ?cond]
  case cond =>
    refine (Bool.and_eq_true _ _).mpr ⟨by simpa using hx, ?_⟩
    simp [List.isPrefixOf]
  rfl

theorem subSingle_pair (m : Char) (pre post : List Char) (fuel : Nat)
    (x rest : List Char) (hx : x ≠ []) (h : ∀ c ∈ x, c ≠ m) :
    subSingle m pre post (fuel + 1) (m :: (x ++ m :: rest)) =
      pre ++ x ++ post ++ subSingle m pre post fuel rest := by
  conv_lhs => unfold subSingle
  rw [if_pos rfl]
  have hrun : (x ++ m :: rest).takeWhile (fun d => d ≠ m) = x := by
    refine takeWhile_append_left x _ ?_ ?_
    · intro c hc
      simp [h c hc]
    · intro y hy
      cases hy
      simp
  rw [hrun]
  have hdrop : (x ++ m :: rest).drop x.length = m :: rest := by simp
  show (if (decide (x ≠ []) && decide (((x ++ m :: rest).drop x.length).head? = some m)) = true
      then pre ++ x ++ post ++ subSingle m pre post fuel (((x ++ m :: rest).drop x.length).drop 1)
      else m :: subSingle m pre post fuel (x ++ m :: rest)) =
      pre ++ x ++ post ++ subSingle m pre post fuel rest
  rw [hdrop]
  rw [if_pos ?cond]
  case cond =>
    refine (Bool.and_eq_true _ _).mpr ⟨by simpa using hx, by simp⟩
  rfl

theorem subDouble_append_single (m : Char) :
    ∀ (fuel : Nat) (x : List Char), (∀ c ∈ x, c ≠ m) →
      subDouble m fuel (x ++ [m]) = x ++ [m] := by
  intro fuel x
  induction x generalizing fuel with
  | nil =>
    intro _
    cases fuel with
    | zero => rfl
    | succ fuel =>
      show subDouble m (fuel + 1) [m] = [m]
      unfold subDouble
      rw [if_pos rfl]
      have : ([] : List Char).head? = none := rfl
      rw [this]
      simp [subDouble_nil]
  | cons x0 x' ih =>
    intro h
    cases fuel with
    | zero => rfl
    | succ fuel =>
      show subDouble m (fuel + 1) (x0 :: (x' ++ [m])) = x0 :: (x' ++ [m])
      unfold subDouble
      rw [if_neg (h x0 (by simp))]
      rw [ih fuel fun d hd => h d (by simp [hd])]

theorem subDouble_single_id (m : Char) (fuel : Nat) (x : List Char)
    (hx : x ≠ []) (h : ∀ c ∈ x, c ≠ m) :
    subDouble m fuel (m :: (x ++ [m])) = m :: (x ++ [m]) := by
  cases fuel with
  | zero => rfl
  | succ fuel =>
    unfold subDouble
    rw [if_pos rfl]
    cases hx0 : x with
    | nil => exact absurd hx0 hx
    | cons x0 x' =>
      rw [hx0] at h
      have hhd : ((x0 :: x') ++ [m]).head? = some x0 := rfl
      rw [hhd]
      rw [if_neg (by
        intro he
        injection he with he
        exact h x0 (by simp) he)]
      rw [subDouble_append_single m fuel (x0 :: x') h]

theorem collapseWsAux_nonws :
    ∀ (b : Bool) (s : List Char), (∀ c ∈ s, pyWs c = false) →
      collapseWsAux b s = s
  | _, [], _ => rfl
  | b, c :: rest, h => by
    unfold collapseWsAux
    rw [if_neg (by simp [h c (by simp)])]
    rw [collapseWsAux_nonws false rest fun d hd => h d (by simp [hd])]

theorem replaceSub_id_head (pat rep : List Char) (fuel : Nat) (s : List Char)
    (hpat : pat ≠ []) (h : ∀ c ∈ s, c ≠ pat.headD ' ') :
    replaceSub pat rep fuel s = s := by
  cases pat with
  | nil => exact absurd rfl hpat
  | cons p0 pat' => exact replaceSub_id p0 pat' rep fuel s (by simpa using h)

/-- C4: the claim says sections containing math markers are classified as Math
with priority over Heading, List and Paragraph.  In the code the
`_format_answer_text` dispatch has no math branch at all (`_is_math_formula`
is never called), so no section is ever classified as Math.  The amended
claim: classification never yields Math; math-marker sections fall through to
the Heading/List/Paragraph branches. -/
theorem c4_math_classification (subject : String) (text : List Char) :
    classifySection subject text ≠ SectionKind.math := by
  unfold classifySection
  split_ifs <;> simp

/-- C4 counterexample: a paragraph full of math markers (`$x^2$`, satisfying
`_is_math_formula`) under subject "Mathematics" is classified as a plain
paragraph, not as Math. -/
theorem c4_counterexample :
    isMathFormula "Evaluate the integral $x^2$ now".toList = true ∧
    classifySection "Mathematics" "Evaluate the integral $x^2$ now".toList =
      SectionKind.para := by
  exact ⟨by decide, by decide⟩

/-- C3 (amended): the claim says bold/italic emphasis survives into the
output; in the code `_enhance_text_formatting` substitutes `\1` for
`\*\*([^*]+)\*\*` and friends, i.e. it deletes the emphasis markers and keeps
only the inner text, so emphasis does not survive.  The backtick half of the
claim holds only on the lines that pass through `_enhance_text_formatting`
(headings, regular paragraph lines, bulleted and plain list items): there an
inline code span becomes bracket-wrapped plain text.  Numbered list lines
are emitted raw by `_format_smart_list` (pdf_compiler.py 808-810), bypassing
enhancement, so a backtick span on a numbered line is left as is.
For a nonempty alphanumeric core x: **x**, __x__, *x* and _x_ all normalize
to the bare x; the backtick span normalizes to [x]; and the numbered list
line "1. backtick-x-backtick" is emitted raw, its backticks intact. -/
theorem c3_emphasis_not_preserved_code_bracketed (x : List Char) (hx : x ≠ [])
    (hal : ∀ c ∈ x, c.isAlphanum = true) :
    enhanceTextFormatting ('*' :: '*' :: (x ++ ['*', '*'])) = x ∧
    enhanceTextFormatting ('_' :: '_' :: (x ++ ['_', '_'])) = x ∧
    enhanceTextFormatting ('*' :: (x ++ ['*'])) = x ∧
    enhanceTextFormatting ('_' :: (x ++ ['_'])) = x ∧
    enhanceTextFormatting (Char.ofNat 96 :: (x ++ [Char.ofNat 96])) =
      '[' :: (x ++ [']']) ∧
    formatSmartList ('1' :: '.' :: ' ' :: (Char.ofNat 96 :: (x ++ [Char.ofNat 96]))) =
      [.paragraph ('1' :: '.' :: ' ' :: (Char.ofNat 96 :: (x ++ [Char.ofNat 96])))
        "ListStyle", .spacer 4] := by
  have key : ∀ (d : Char), d.isAlphanum = false → ∀ c ∈ x, c ≠ d :=
    fun d hd c hc => alnum_ne (hal c hc) hd
  have hws : ∀ c ∈ x, pyWs c = false := fun c hc => alnum_not_ws (hal c hc)
  have hdouble : ∀ (m d : Char), m ≠ d → d.isAlphanum = false →
      ∀ c ∈ (m :: m :: (x ++ [m, m])), c ≠ d := by
    intro m d hmd hd c hc
    rcases List.mem_cons.mp hc with rfl | hc
    · exact hmd
    rcases List.mem_cons.mp hc with rfl | hc
    · exact hmd
    rcases List.mem_append.mp hc with hcx | hc
    · exact key d hd c hcx
    rcases List.mem_cons.mp hc with rfl | hc
    · exact hmd
    rcases List.mem_cons.mp hc with rfl | hc
    · exact hmd
    exact absurd hc (List.not_mem_nil c)
  have hsingle : ∀ (m d : Char), m ≠ d → d.isAlphanum = false →
      ∀ c ∈ (m :: (x ++ [m])), c ≠ d := by
    intro m d hmd hd c hc
    rcases List.mem_cons.mp hc with rfl | hc
    · exact hmd
    rcases List.mem_append.mp hc with hcx | hc
    · exact key d hd c hcx
    rcases List.mem_cons.mp hc with rfl | hc
    · exact hmd
    exact absurd hc (List.not_mem_nil c)
  have hbr : ∀ c ∈ ('[' :: (x ++ [']'])), pyWs c = false := by
    intro c hc
    rcases List.mem_cons.mp hc with rfl | hc
    · decide
    rcases List.mem_append.mp hc with hcx | hc
    · exact hws c hcx
    rcases List.mem_cons.mp hc with rfl | hc
    · decide
    exact absurd hc (List.not_mem_nil c)
  have hbrne : ∀ (d : Char), d ≠ '[' → d ≠ ']' → d.isAlphanum = false →
      ∀ c ∈ ('[' :: (x ++ [']'])), c ≠ d := by
    intro d hd1 hd2 hd c hc
    rcases List.mem_cons.mp hc with rfl | hc
    · exact fun he => hd1 he.symm
    rcases List.mem_append.mp hc with hcx | hc
    · exact key d hd c hcx
    rcases List.mem_cons.mp hc with rfl | hc
    · exact fun he => hd2 he.symm
    exact absurd hc (List.not_mem_nil c)
  refine ⟨?_, ?_, ?_, ?_, ?_, ?_⟩
  · have hlt := hdouble '*' '<' (by decide) (by decide)
    have hamp := hdouble '*' '&' (by decide) (by decide)
    have hstar := key '*' (by decide)
    have hh : ∀ c ∈ ('*' :: '*' :: (x ++ ['*', '*'])).head?, c ≠ '#' := by
      intro c hc
      have h1 : ('*' :: '*' :: (x ++ ['*', '*'])).head? = some '*' := rfl
      rw [h1] at hc
      simp at hc
      subst hc
      decide
    have hlen : ('*' :: '*' :: (x ++ ['*', '*'])).length = x.length + 3 + 1 := by
      simp only [List.length_cons, List.length_append, List.length_nil]
    simp only [enhanceTextFormatting]
    rw [removeTags_id _ _ hlt]
    rw [replaceSub_id_head "&lt;".toList "<".toList _ _ (by decide) hamp]
    rw [replaceSub_id_head "&gt;".toList ">".toList _ _ (by decide) hamp]
    rw [replaceSub_id_head "&amp;".toList "&".toList _ _ (by decide) hamp]
    rw [replaceSub_id_head "&quot;".toList "\"".toList _ _ (by decide) hamp]
    rw [replaceSub_id_head "&nbsp;".toList " ".toList _ _ (by decide) hamp]
    rw [stripHashes_id hh]
    rw [hlen]
    rw [subDouble_pair '*' (x.length + 3) x [] hx hstar]
    rw [subDouble_nil, List.append_nil]
    rw [subDouble_id '_' _ _ (key '_' (by decide))]
    rw [subSingle_id '*' [] [] _ _ hstar]
    rw [subSingle_id '_' [] [] _ _ (key '_' (by decide))]
    rw [subSingle_id (Char.ofNat 96) ['['] [']'] _ _ (key (Char.ofNat 96) (by decide))]
    rw [collapseWsAux_nonws false x hws]
    rw [pyStrip_eq_self_all hws]
    rw [replaceSub_id_head "<br>".toList " ".toList _ _ (by decide) (key '<' (by decide))]
    rw [replaceSub_id_head "<br/>".toList " ".toList _ _ (by decide) (key '<' (by decide))]
  · have hlt := hdouble '_' '<' (by decide) (by decide)
    have hamp := hdouble '_' '&' (by decide) (by decide)
    have hstar := hdouble '_' '*' (by decide) (by decide)
    have hund := key '_' (by decide)
    have hh : ∀ c ∈ ('_' :: '_' :: (x ++ ['_', '_'])).head?, c ≠ '#' := by
      intro c hc
      have h1 : ('_' :: '_' :: (x ++ ['_', '_'])).head? = some '_' := rfl
      rw [h1] at hc
      simp at hc
      subst hc
      decide
    have hlen : ('_' :: '_' :: (x ++ ['_', '_'])).length = x.length + 3 + 1 := by
      simp only [List.length_cons, List.length_append, List.length_nil]
    simp only [enhanceTextFormatting]
    rw [removeTags_id _ _ hlt]
    rw [replaceSub_id_head "&lt;".toList "<".toList _ _ (by decide) hamp]
    rw [replaceSub_id_head "&gt;".toList ">".toList _ _ (by decide) hamp]
    rw [replaceSub_id_head "&amp;".toList "&".toList _ _ (by decide) hamp]
    rw [replaceSub_id_head "&quot;".toList "\"".toList _ _ (by decide) hamp]
    rw [replaceSub_id_head "&nbsp;".toList " ".toList _ _ (by decide) hamp]
    rw [stripHashes_id hh]
    rw [subDouble_id '*' _ _ hstar]
    rw [hlen]
    rw [subDouble_pair '_' (x.length + 3) x [] hx hund]
    rw [subDouble_nil, List.append_nil]
    rw [subSingle_id '*' [] [] _ _ (key '*' (by decide))]
    rw [subSingle_id '_' [] [] _ _ hund]
    rw [subSingle_id (Char.ofNat 96) ['['] [']'] _ _ (key (Char.ofNat 96) (by decide))]
    rw [collapseWsAux_nonws false x hws]
    rw [pyStrip_eq_self_all hws]
    rw [replaceSub_id_head "<br>".toList " ".toList _ _ (by decide) (key '<' (by decide))]
    rw [replaceSub_id_head "<br/>".toList " ".toList _ _ (by decide) (key '<' (by decide))]
  · have hlt := hsingle '*' '<' (by decide) (by decide)
    have hamp := hsingle '*' '&' (by decide) (by decide)
    have hstar := key '*' (by decide)
    have hh : ∀ c ∈ ('*' :: (x ++ ['*'])).head?, c ≠ '#' := by
      intro c hc
      have h1 : ('*' :: (x ++ ['*'])).head? = some '*' := rfl
      rw [h1] at hc
      simp at hc
      subst hc
      decide
    have hlen : ('*' :: (x ++ ['*'])).length = x.length + 1 + 1 := by
      simp only [List.length_cons, List.length_append, List.length_nil]
    simp only [enhanceTextFormatting]
    rw [removeTags_id _ _ hlt]
    rw [replaceSub_id_head "&lt;".toList "<".toList _ _ (by decide) hamp]
    rw [replaceSub_id_head "&gt;".toList ">".toList _ _ (by decide) hamp]
    rw [replaceSub_id_head "&amp;".toList "&".toList _ _ (by decide) hamp]
    rw [replaceSub_id_head "&quot;".toList "\"".toList _ _ (by decide) hamp]
    rw [replaceSub_id_head "&nbsp;".toList " ".toList _ _ (by decide) hamp]
    rw [stripHashes_id hh]
    rw [subDouble_single_id '*' _ x hx hstar]
    rw [subDouble_id '_' _ _ (hsingle '*' '_' (by decide) (by decide))]
    rw [hlen]
    rw [subSingle_pair '*' [] [] (x.length + 1) x [] hx hstar]
    rw [subSingle_nil]
    simp only [List.append_nil, List.nil_append]
    rw [subSingle_id '_' [] [] _ _ (key '_' (by decide))]
    rw [subSingle_id (Char.ofNat 96) ['['] [']'] _ _ (key (Char.ofNat 96) (by decide))]
    rw [collapseWsAux_nonws false x hws]
    rw [pyStrip_eq_self_all hws]
    rw [replaceSub_id_head "<br>".toList " ".toList _ _ (by decide) (key '<' (by decide))]
    rw [replaceSub_id_head "<br/>".toList " ".toList _ _ (by decide) (key '<' (by decide))]
  · have hlt := hsingle '_' '<' (by decide) (by decide)
    have hamp := hsingle '_' '&' (by decide) (by decide)
    have hund := key '_' (by decide)
    have hh : ∀ c ∈ ('_' :: (x ++ ['_'])).head?, c ≠ '#' := by
      intro c hc
      have h1 : ('_' :: (x ++ ['_'])).head? = some '_' := rfl
      rw [h1] at hc
      simp at hc
      subst hc
      decide
    have hlen : ('_' :: (x ++ ['_'])).length = x.length + 1 + 1 := by
      simp only [List.length_cons, List.length_append, List.length_nil]
    simp only [enhanceTextFormatting]
    rw [removeTags_id _ _ hlt]
    rw [replaceSub_id_head "&lt;".toList "<".toList _ _ (by decide) hamp]
    rw [replaceSub_id_head "&gt;".toList ">".toList _ _ (by decide) hamp]
    rw [replaceSub_id_head "&amp;".toList "&".toList _ _ (by decide) hamp]
    rw [replaceSub_id_head "&quot;".toList "\"".toList _ _ (by decide) hamp]
    rw [replaceSub_id_head "&nbsp;".toList " ".toList _ _ (by decide) hamp]
    rw [stripHashes_id hh]
    rw [subDouble_id '*' _ _ (hsingle '_' '*' (by decide) (by decide))]
    rw [subDouble_single_id '_' _ x hx hund]
    rw [subSingle_id '*' [] [] _ _ (hsingle '_' '*' (by decide) (by decide))]
    rw [hlen]
    rw [subSingle_pair '_' [] [] (x.length + 1) x [] hx hund]
    rw [subSingle_nil]
    simp only [List.append_nil, List.nil_append]
    rw [subSingle_id (Char.ofNat 96) ['['] [']'] _ _ (key (Char.ofNat 96) (by decide))]
    rw [collapseWsAux_nonws false x hws]
    rw [pyStrip_eq_self_all hws]
    rw [replaceSub_id_head "<br>".toList " ".toList _ _ (by decide) (key '<' (by decide))]
    rw [replaceSub_id_head "<br/>".toList " ".toList _ _ (by decide) (key '<' (by decide))]
  · have hlt := hsingle (Char.ofNat 96) '<' (by decide) (by decide)
    have hamp := hsingle (Char.ofNat 96) '&' (by decide) (by decide)
    have hbt := key (Char.ofNat 96) (by decide)
    have hh : ∀ c ∈ (Char.ofNat 96 :: (x ++ [Char.ofNat 96])).head?, c ≠ '#' := by
      intro c hc
      have h1 : (Char.ofNat 96 :: (x ++ [Char.ofNat 96])).head? = some (Char.ofNat 96) := rfl
      rw [h1] at hc
      simp at hc
      subst hc
      decide
    have hlen : (Char.ofNat 96 :: (x ++ [Char.ofNat 96])).length = x.length + 1 + 1 := by
      simp only [List.length_cons, List.length_append, List.length_nil]
    simp only [enhanceTextFormatting]
    rw [removeTags_id _ _ hlt]
    rw [replaceSub_id_head "&lt;".toList "<".toList _ _ (by decide) hamp]
    rw [replaceSub_id_head "&gt;".toList ">".toList _ _ (by decide) hamp]
    rw [replaceSub_id_head "&amp;".toList "&".toList _ _ (by decide) hamp]
    rw [replaceSub_id_head "&quot;".toList "\"".toList _ _ (by decide) hamp]
    rw [replaceSub_id_head "&nbsp;".toList " ".toList _ _ (by decide) hamp]
    rw [stripHashes_id hh]
    rw [subDouble_id '*' _ _ (hsingle (Char.ofNat 96) '*' (by decide) (by decide))]
    rw [subDouble_id '_' _ _ (hsingle (Char.ofNat 96) '_' (by decide) (by decide))]
    rw [subSingle_id '*' [] [] _ _ (hsingle (Char.ofNat 96) '*' (by decide) (by decide))]
    rw [subSingle_id '_' [] [] _ _ (hsingle (Char.ofNat 96) '_' (by decide) (by decide))]
    rw [hlen]
    rw [subSingle_pair (Char.ofNat 96) ['['] [']'] (x.length + 1) x [] hx hbt]
    rw [subSingle_nil]
    simp only [List.append_nil, List.cons_append, List.nil_append]
    rw [collapseWsAux_nonws false _ hbr]
    rw [pyStrip_eq_self_all hbr]
    rw [replaceSub_id_head "<br>".toList " ".toList _ _ (by decide)
      (hbrne '<' (by decide) (by decide) (by decide))]
    rw [replaceSub_id_head "<br/>".toList " ".toList _ _ (by decide)
      (hbrne '<' (by decide) (by decide) (by decide))]
  · have hnl : '\n' ∉ ('1' :: '.' :: ' ' :: (Char.ofNat 96 :: (x ++ [Char.ofNat 96]))) := by
      intro hmem
      rcases List.mem_cons.mp hmem with h | hmem
      · exact absurd h (by decide)
      rcases List.mem_cons.mp hmem with h | hmem
      · exact absurd h (by decide)
      rcases List.mem_cons.mp hmem with h | hmem
      · exact absurd h (by decide)
      rcases List.mem_cons.mp hmem with h | hmem
      · exact absurd h (by decide)
      rcases List.mem_append.mp hmem with h | h
      · exact absurd (hal '\n' h) (by decide)
      rcases List.mem_cons.mp h with h | h
      · exact absurd h (by decide)
      · exact absurd h (List.not_mem_nil _)
    have hstrip : pyStrip ('1' :: '.' :: ' ' :: (Char.ofNat 96 :: (x ++ [Char.ofNat 96]))) =
        '1' :: '.' :: ' ' :: (Char.ofNat 96 :: (x ++ [Char.ofNat 96])) := by
      refine pyStrip_eq_self ?_ ?_
      · intro c hc
        have h1 : ('1' :: '.' :: ' ' :: (Char.ofNat 96 :: (x ++ [Char.ofNat 96]))).head? =
            some '1' := rfl
        rw [h1] at hc
        simp at hc
        subst hc
        decide
      · intro c hc
        have h2 : ('1' :: '.' :: ' ' :: (Char.ofNat 96 :: (x ++ [Char.ofNat 96]))).getLast? =
            some (Char.ofNat 96) := by
          show (('1' :: '.' :: ' ' :: Char.ofNat 96 :: x) ++ [Char.ofNat 96]).getLast? =
            some (Char.ofNat 96)
          exact List.getLast?_concat _
        rw [h2] at hc
        simp at hc
        subst hc
        decide
    have hsd : startsDigitsDot ('1' :: '.' :: ' ' :: (Char.ofNat 96 :: (x ++ [Char.ofNat 96]))) =
        true := rfl
    unfold formatSmartList
    rw [splitNl_no_nl _ hnl]
    simp only [List.flatMap_cons, List.flatMap_nil, List.append_nil]
    show (if pyStrip ('1' :: '.' :: ' ' :: (Char.ofNat 96 :: (x ++ [Char.ofNat 96]))) = []
        then ([] : List PDFElem)
      else if startsDigitsDot
          (pyStrip ('1' :: '.' :: ' ' :: (Char.ofNat 96 :: (x ++ [Char.ofNat 96])))) = true then
        [.paragraph (pyStrip ('1' :: '.' :: ' ' :: (Char.ofNat 96 :: (x ++ [Char.ofNat 96]))))
          "ListStyle", .spacer 4]
      else if (match (pyStrip ('1' :: '.' :: ' ' ::
            (Char.ofNat 96 :: (x ++ [Char.ofNat 96])))).head? with
               | some c => c = '-' || c = '•' || c = '*'
               | none => false) = true then
        [.paragraph ('•' :: ' ' :: enhanceTextFormatting (stripBullets
            (pyStrip ('1' :: '.' :: ' ' :: (Char.ofNat 96 :: (x ++ [Char.ofNat 96]))))))
          "ListStyle", .spacer 4]
      else [.paragraph ('•' :: ' ' :: enhanceTextFormatting
          (pyStrip ('1' :: '.' :: ' ' :: (Char.ofNat 96 :: (x ++ [Char.ofNat 96])))))
          "ListStyle", .spacer 4]) =
      [.paragraph ('1' :: '.' :: ' ' :: (Char.ofNat 96 :: (x ++ [Char.ofNat 96])))
        "ListStyle", .spacer 4]
    rw [hstrip]
    rw [if_neg (by simp)]
    rw [if_pos hsd]

/-- Witness for C3 at the concrete core "bold". -/
theorem c3_witness :
    ("bold".toList ≠ [] ∧ ∀ c ∈ "bold".toList, c.isAlphanum = true) ∧
    (enhanceTextFormatting ('*' :: '*' :: ("bold".toList ++ ['*', '*'])) = "bold".toList ∧
     enhanceTextFormatting ('_' :: '_' :: ("bold".toList ++ ['_', '_'])) = "bold".toList ∧
     enhanceTextFormatting ('*' :: ("bold".toList ++ ['*'])) = "bold".toList ∧
     enhanceTextFormatting ('_' :: ("bold".toList ++ ['_'])) = "bold".toList ∧
     enhanceTextFormatting (Char.ofNat 96 :: ("bold".toList ++ [Char.ofNat 96])) =
       '[' :: ("bold".toList ++ [']']) ∧
     formatSmartList ('1' :: '.' :: ' ' ::
         (Char.ofNat 96 :: ("bold".toList ++ [Char.ofNat 96]))) =
       [.paragraph ('1' :: '.' :: ' ' ::
           (Char.ofNat 96 :: ("bold".toList ++ [Char.ofNat 96]))) "ListStyle",
         .spacer 4]) :=
  ⟨⟨by decide, by decide⟩,
   c3_emphasis_not_preserved_code_bracketed "bold".toList (by decide) (by decide)⟩

/-- C3 counterexample: the normalized form of "**bold** word" is identical to
that of the unemphasized "bold word", so the bold emphasis cannot survive into
the output in any representation; and a section classified as List whose
numbered line carries a backtick code span is emitted with that line raw, its
backticks intact rather than bracket-wrapped. -/
theorem c3_counterexample :
    enhanceTextFormatting "**bold** word".toList = "bold word".toList ∧
    enhanceTextFormatting "bold word".toList = "bold word".toList ∧
    classifySection "History" "1. see `foo` now\n2. done".toList =
      SectionKind.list ∧
    formatSmartList "1. see `foo` now\n2. done".toList =
      [.paragraph "1. see `foo` now".toList "ListStyle", .spacer 4,
       .paragraph "2. done".toList "ListStyle", .spacer 4] := by
  exact ⟨by decide, by decide, by decide, by decide⟩

theorem fixEncoding_not_ws {c : Char} (h : pyWs c = false) :
    pyWs (fixEncoding c) = false := by
  unfold fixEncoding
  split_ifs <;> first | decide | exact h

theorem mem_dropWhile_not_ws {c : Char} {s : List Char} (hc : c ∈ s)
    (hnw : pyWs c = false) : c ∈ s.dropWhile pyWs := by
  have hsw : s.takeWhile pyWs ++ s.dropWhile pyWs = s :=
    List.takeWhile_append_dropWhile pyWs s
  rcases List.mem_append.mp (by rw [hsw]; exact hc) with h | h
  · have h2 := List.mem_takeWhile_imp h
    rw [h2] at hnw
    cases hnw
  · exact h

theorem mem_pyStrip {c : Char} {s : List Char} (hc : c ∈ s)
    (hnw : pyWs c = false) : c ∈ pyStrip s := by
  unfold pyStrip
  rw [List.mem_reverse]
  refine mem_dropWhile_not_ws ?_ hnw
  rw [List.mem_reverse]
  exact mem_dropWhile_not_ws hc hnw

theorem collapseSpacesAux_mem :
    ∀ (b : Bool) (s : List Char) (c : Char), c ∈ s → c ≠ ' ' →
      c ∈ collapseSpacesAux b s
  | _, [], c, hc, _ => absurd hc (List.not_mem_nil c)
  | b, d :: rest, c, hc, hcs => by
    show c ∈ (if d = ' ' then
        (if b = true then collapseSpacesAux true rest
         else ' ' :: collapseSpacesAux true rest)
      else d :: collapseSpacesAux false rest)
    rcases List.mem_cons.mp hc with rfl | hcr
    · rw [if_neg hcs]
      exact List.mem_cons_self _ _
    · by_cases hd : d = ' '
      · rw [if_pos hd]
        have h2 := collapseSpacesAux_mem true rest c hcr hcs
        cases b with
        | true => simpa using h2
        | false => exact List.mem_cons_of_mem _ h2
      · rw [if_neg hd]
        exact List.mem_cons_of_mem _ (collapseSpacesAux_mem false rest c hcr hcs)

theorem mem_drop_of_ws_prefix (s : List Char) (k : Nat) (c : Char)
    (hk : k ≤ (s.takeWhile pyWs).length) (hc : c ∈ s)
    (hnw : pyWs c = false) : c ∈ s.drop k := by
  have hsplit : s.take k ++ s.drop k = s := List.take_append_drop k s
  rcases List.mem_append.mp (by rw [hsplit]; exact hc) with h | h
  · exfalso
    have hsw : s.takeWhile pyWs ++ s.dropWhile pyWs = s :=
      List.takeWhile_append_dropWhile pyWs s
    have h2 : s.take k = (s.takeWhile pyWs).take k := by
      conv_lhs => rw [← hsw]
      rw [List.take_append_of_le_length hk]
    rw [h2] at h
    have h3 : c ∈ s.takeWhile pyWs := List.mem_of_mem_take h
    have h4 := List.mem_takeWhile_imp h3
    rw [h4] at hnw
    cases hnw
  · exact h

theorem collapseNl_mem : ∀ (fuel : Nat) (s : List Char) (c : Char),
    c ∈ s → pyWs c = false → c ∈ collapseNl fuel s
  | 0, _, _, hc, _ => hc
  | _ + 1, [], c, hc, _ => absurd hc (List.not_mem_nil c)
  | fuel + 1, d :: rest, c, hc, hnw => by
    show c ∈ (if d = '\n' then
        (if 3 ≤ ((d :: rest).takeWhile pyWs).count '\n' then
          '\n' :: '\n' :: collapseNl fuel ((d :: rest).drop
            (((d :: rest).takeWhile pyWs).length -
              (((d :: rest).takeWhile pyWs).reverse.takeWhile
                (fun e => e ≠ '\n')).length))
        else d :: collapseNl fuel rest)
      else d :: collapseNl fuel rest)
    by_cases hd : d = '\n'
    · subst hd
      rw [if_pos rfl]
      have hcn : c ≠ '\n' := fun he => absurd (he ▸ hnw) (by decide)
      have hcr : c ∈ rest := by
        rcases List.mem_cons.mp hc with rfl | h2
        · exact absurd rfl hcn
        · exact h2
      by_cases h3 : 3 ≤ (('\n' :: rest).takeWhile pyWs).count '\n'
      · rw [if_pos h3]
        refine List.mem_cons_of_mem _ (List.mem_cons_of_mem _ ?_)
        refine collapseNl_mem fuel _ c ?_ hnw
        exact mem_drop_of_ws_prefix _ _ c (Nat.sub_le _ _) hc hnw
      · rw [if_neg h3]
        exact List.mem_cons_of_mem _ (collapseNl_mem fuel rest c hcr hnw)
    · rw [if_neg hd]
      rcases List.mem_cons.mp hc with rfl | hcr
      · exact List.mem_cons_self _ _
      · exact List.mem_cons_of_mem _ (collapseNl_mem fuel rest c hcr hnw)

theorem splitNN_nn (rest : List Char) :
    splitNN ('\n' :: '\n' :: rest) = [] :: splitNN rest := rfl

theorem splitNN_cons_ne (c : Char) (hc : c ≠ '\n') (rest : List Char) :
    splitNN (c :: rest) =
      match splitNN rest with
      | [] => [[c]]
      | h :: t => (c :: h) :: t := by
  conv_lhs => unfold splitNN
  split
  · next heq => simp at heq
  · next heq =>
    exfalso
    injection heq with h1 h2
    exact hc h1
  · next heq =>
    injection heq with h1 h2
    subst h1
    subst h2
    rfl

theorem splitNN_nl_cons_ne (c : Char) (hc : c ≠ '\n') (rest : List Char) :
    splitNN ('\n' :: c :: rest) =
      match splitNN (c :: rest) with
      | [] => [['\n']]
      | h :: t => ('\n' :: h) :: t := by
  conv_lhs => unfold splitNN
  split
  · next heq => simp at heq
  · next heq =>
    exfalso
    injection heq with h1 h2
    injection h2 with h2
    exact hc h2
  · next heq =>
    injection heq with h1 h2
    subst h1
    subst h2
    rfl

theorem mem_splitNN : ∀ (t : List Char) (c : Char), c ∈ t → c ≠ '\n' →
    ∃ sec ∈ splitNN t, c ∈ sec
  | [], c, hc, _ => absurd hc (List.not_mem_nil c)
  | [t0], c, hc, hn => by
    have hc0 : c = t0 := by
      rcases List.mem_cons.mp hc with rfl | h
      · rfl
      · exact absurd h (List.not_mem_nil c)
    subst hc0
    rw [splitNN_cons_ne c hn []]
    show ∃ sec ∈ [[c]], c ∈ sec
    exact ⟨[c], List.mem_singleton_self _, List.mem_singleton_self _⟩
  | t0 :: t1 :: rest, c, hc, hn => by
    by_cases h0 : t0 = '\n'
    · subst h0
      by_cases h1 : t1 = '\n'
      · subst h1
        have hcr : c ∈ rest := by
          rcases List.mem_cons.mp hc with rfl | h2
          · exact absurd rfl hn
          rcases List.mem_cons.mp h2 with rfl | h3
          · exact absurd rfl hn
          · exact h3
        obtain ⟨sec, hs, hcs⟩ := mem_splitNN rest c hcr hn
        refine ⟨sec, ?_, hcs⟩
        rw [splitNN_nn]
        exact List.mem_cons_of_mem _ hs
      · have hcr : c ∈ t1 :: rest := by
          rcases List.mem_cons.mp hc with rfl | h2
          · exact absurd rfl hn
          · exact h2
        obtain ⟨sec, hs, hcs⟩ := mem_splitNN (t1 :: rest) c hcr hn
        rw [splitNN_nl_cons_ne t1 h1 rest]
        cases hsp : splitNN (t1 :: rest) with
        | nil =>
          rw [hsp] at hs
          exact absurd hs (List.not_mem_nil sec)
        | cons h t =>
          rw [hsp] at hs
          show ∃ s2 ∈ ('\n' :: h) :: t, c ∈ s2
          rcases List.mem_cons.mp hs with rfl | hst
          · exact ⟨'\n' :: sec, List.mem_cons_self _ _, List.mem_cons_of_mem _ hcs⟩
          · exact ⟨sec, List.mem_cons_of_mem _ hst, hcs⟩
    · rw [splitNN_cons_ne t0 h0 (t1 :: rest)]
      rcases List.mem_cons.mp hc with rfl | hcr
      · cases hsp : splitNN (t1 :: rest) with
        | nil =>
          show ∃ s2 ∈ [[c]], c ∈ s2
          exact ⟨[c], List.mem_singleton_self _, List.mem_singleton_self _⟩
        | cons h t =>
          show ∃ s2 ∈ (c :: h) :: t, c ∈ s2
          exact ⟨c :: h, List.mem_cons_self _ _, List.mem_cons_self _ _⟩
      · obtain ⟨sec, hs, hcs⟩ := mem_splitNN (t1 :: rest) c hcr hn
        cases hsp : splitNN (t1 :: rest) with
        | nil =>
          rw [hsp] at hs
          exact absurd hs (List.not_mem_nil sec)
        | cons h t =>
          rw [hsp] at hs
          show ∃ s2 ∈ (t0 :: h) :: t, c ∈ s2
          rcases List.mem_cons.mp hs with rfl | hst
          · exact ⟨t0 :: sec, List.mem_cons_self _ _, List.mem_cons_of_mem _ hcs⟩
          · exact ⟨sec, List.mem_cons_of_mem _ hst, hcs⟩

theorem mem_splitNl : ∀ (s : List Char) (c : Char), c ∈ s → c ≠ '\n' →
    ∃ line ∈ splitNl s, c ∈ line
  | [], c, hc, _ => absurd hc (List.not_mem_nil c)
  | a :: rest, c, hc, hn => by
    rw [splitNl_cons_eq]
    cases hsp : splitNl rest with
    | nil => exact absurd hsp (splitNl_ne_nil rest)
    | cons h t =>
      show ∃ line ∈ (if a = '\n' then [] :: h :: t else (a :: h) :: t), c ∈ line
      rcases List.mem_cons.mp hc with rfl | hcr
      · rw [if_neg hn]
        exact ⟨c :: h, List.mem_cons_self _ _, List.mem_cons_self _ _⟩
      · obtain ⟨line, hl, hcl⟩ := mem_splitNl rest c hcr hn
        rw [hsp] at hl
        by_cases ha : a = '\n'
        · rw [if_pos ha]
          exact ⟨line, List.mem_cons_of_mem _ hl, hcl⟩
        · rw [if_neg ha]
          rcases List.mem_cons.mp hl with rfl | hlt
          · exact ⟨a :: line, List.mem_cons_self _ _, List.mem_cons_of_mem _ hcl⟩
          · exact ⟨line, List.mem_cons_of_mem _ hlt, hcl⟩

theorem countBlocks_pos {e : PDFElem} {elems : List PDFElem}
    (he : e ∈ elems) (hc : isContentElem e = true) : 1 ≤ countBlocks elems := by
  unfold countBlocks
  exact List.length_pos_of_mem (List.mem_filter.mpr ⟨he, hc⟩)

theorem sliceChunks_ne_nil (w fuel : Nat) (s : List Char) (h : s ≠ []) :
    sliceChunks w fuel s ≠ [] := by
  cases s with
  | nil => exact absurd rfl h
  | cons c rest =>
    cases fuel with
    | zero => simp [sliceChunks]
    | succ fuel => simp [sliceChunks]

theorem content_in_heading (s : List Char) :
    ∃ e ∈ [formatHeading s], isContentElem e = true := by
  refine ⟨formatHeading s, List.mem_singleton_self _, ?_⟩
  unfold formatHeading
  rfl

theorem content_in_para (s : List Char) (w : Char) (hw : w ∈ s)
    (hnw : pyWs w = false) :
    ∃ e ∈ formatRegularParagraph s, isContentElem e = true := by
  have hwn : w ≠ '\n' := fun he => absurd (he ▸ hnw) (by decide)
  obtain ⟨line, hl, hwl⟩ := mem_splitNl s w hw hwn
  have hlne : pyStrip line ≠ [] := List.ne_nil_of_mem (mem_pyStrip hwl hnw)
  refine ⟨.paragraph (enhanceTextFormatting (pyStrip line)) "AnswerStyle", ?_, rfl⟩
  unfold formatRegularParagraph
  refine List.mem_flatMap.mpr ⟨line, hl, ?_⟩
  show PDFElem.paragraph (enhanceTextFormatting (pyStrip line)) "AnswerStyle" ∈
    (if pyStrip line = [] then ([] : List PDFElem)
     else [.paragraph (enhanceTextFormatting (pyStrip line)) "AnswerStyle",
       .spacer 6])
  rw [if_neg hlne]
  exact List.mem_cons_self _ _

theorem content_in_list (s : List Char) (w : Char) (hw : w ∈ s)
    (hnw : pyWs w = false) :
    ∃ e ∈ formatSmartList s, isContentElem e = true := by
  have hwn : w ≠ '\n' := fun he => absurd (he ▸ hnw) (by decide)
  obtain ⟨line, hl, hwl⟩ := mem_splitNl s w hw hwn
  have hlne : pyStrip line ≠ [] := List.ne_nil_of_mem (mem_pyStrip hwl hnw)
  unfold formatSmartList
  by_cases h1 : startsDigitsDot (pyStrip line) = true
  · refine ⟨.paragraph (pyStrip line) "ListStyle",
      List.mem_flatMap.mpr ⟨line, hl, ?_⟩, rfl⟩
    show PDFElem.paragraph (pyStrip line) "ListStyle" ∈
      (if pyStrip line = [] then ([] : List PDFElem)
       else if startsDigitsDot (pyStrip line) = true then
         [.paragraph (pyStrip line) "ListStyle", .spacer 4]
       else if (match (pyStrip line).head? with
                | some c => c = '-' || c = '•' || c = '*'
                | none => false) = true then
         [.paragraph ('•' :: ' ' ::
             enhanceTextFormatting (stripBullets (pyStrip line))) "ListStyle",
           .spacer 4]
       else [.paragraph ('•' :: ' ' :: enhanceTextFormatting (pyStrip line))
           "ListStyle", .spacer 4])
    rw [if_neg hlne, if_pos h1]
    exact List.mem_cons_self _ _
  · by_cases h2 : (match (pyStrip line).head? with
        | some c => c = '-' || c = '•' || c = '*'
        | none => false) = true
    · refine ⟨.paragraph ('•' :: ' ' ::
          enhanceTextFormatting (stripBullets (pyStrip line))) "ListStyle",
        List.mem_flatMap.mpr ⟨line, hl, ?_⟩, rfl⟩
      show PDFElem.paragraph ('•' :: ' ' ::
          enhanceTextFormatting (stripBullets (pyStrip line))) "ListStyle" ∈
        (if pyStrip line = [] then ([] : List PDFElem)
         else if startsDigitsDot (pyStrip line) = true then
           [.paragraph (pyStrip line) "ListStyle", .spacer 4]
         else if (match (pyStrip line).head? with
                  | some c => c = '-' || c = '•' || c = '*'
                  | none => false) = true then
           [.paragraph ('•' :: ' ' ::
               enhanceTextFormatting (stripBullets (pyStrip line))) "ListStyle",
             .spacer 4]
         else [.paragraph ('•' :: ' ' :: enhanceTextFormatting (pyStrip line))
             "ListStyle", .spacer 4])
      rw [if_neg hlne, if_neg h1, if_pos h2]
      exact List.mem_cons_self _ _
    · refine ⟨.paragraph ('•' :: ' ' :: enhanceTextFormatting (pyStrip line))
          "ListStyle",
        List.mem_flatMap.mpr ⟨line, hl, ?_⟩, rfl⟩
      show PDFElem.paragraph ('•' :: ' ' ::
          enhanceTextFormatting (pyStrip line)) "ListStyle" ∈
        (if pyStrip line = [] then ([] : List PDFElem)
         else if startsDigitsDot (pyStrip line) = true then
           [.paragraph (pyStrip line) "ListStyle", .spacer 4]
         else if (match (pyStrip line).head? with
                  | some c => c = '-' || c = '•' || c = '*'
                  | none => false) = true then
           [.paragraph ('•' :: ' ' ::
               enhanceTextFormatting (stripBullets (pyStrip line))) "ListStyle",
             .spacer 4]
         else [.paragraph ('•' :: ' ' :: enhanceTextFormatting (pyStrip line))
             "ListStyle", .spacer 4])
      rw [if_neg hlne, if_neg h1, if_neg h2]
      exact List.mem_cons_self _ _

theorem content_in_code (s : List Char) (w : Char) (hw : w ∈ s)
    (hnw : pyWs w = false) :
    ∃ e ∈ formatSmartCodeBlock s, isContentElem e = true := by
  have hwn : w ≠ '\n' := fun he => absurd (he ▸ hnw) (by decide)
  obtain ⟨line, hl, hwl⟩ := mem_splitNl s w hw hwn
  have hlne : pyStrip line ≠ [] := List.ne_nil_of_mem (mem_pyStrip hwl hnw)
  have hex : ∃ e0, e0 ∈ (if 80 < (expandTabs line).length then
      sliceChunks 80 (expandTabs line).length (expandTabs line)
    else [expandTabs line]) := by
    by_cases h80 : 80 < (expandTabs line).length
    · rw [if_pos h80]
      have hne : expandTabs line ≠ [] := by
        intro he
        rw [he] at h80
        simp at h80
      exact List.exists_mem_of_ne_nil _ (sliceChunks_ne_nil 80 _ _ hne)
    · rw [if_neg h80]
      exact ⟨expandTabs line, List.mem_singleton_self _⟩
  obtain ⟨e0, he0⟩ := hex
  have hmem : e0 ∈ (splitNl s).flatMap (fun line =>
      if pyStrip line = [] then []
      else
        if 80 < (expandTabs line).length then
          sliceChunks 80 (expandTabs line).length (expandTabs line)
        else [expandTabs line]) := by
    refine List.mem_flatMap.mpr ⟨line, hl, ?_⟩
    show e0 ∈ (if pyStrip line = [] then []
      else
        if 80 < (expandTabs line).length then
          sliceChunks 80 (expandTabs line).length (expandTabs line)
        else [expandTabs line])
    rw [if_neg hlne]
    exact he0
  refine ⟨.table ((splitNl s).flatMap (fun line =>
      if pyStrip line = [] then []
      else
        if 80 < (expandTabs line).length then
          sliceChunks 80 (expandTabs line).length (expandTabs line)
        else [expandTabs line])), ?_, rfl⟩
  show PDFElem.table _ ∈ (if ((splitNl s).flatMap (fun line =>
      if pyStrip line = [] then []
      else
        if 80 < (expandTabs line).length then
          sliceChunks 80 (expandTabs line).length (expandTabs line)
        else [expandTabs line])) = [] then ([] : List PDFElem)
    else [.spacer 6, .table ((splitNl s).flatMap (fun line =>
      if pyStrip line = [] then []
      else
        if 80 < (expandTabs line).length then
          sliceChunks 80 (expandTabs line).length (expandTabs line)
        else [expandTabs line])), .spacer 6])
  rw [if_neg (List.ne_nil_of_mem hmem)]
  exact List.mem_cons_of_mem _ (List.mem_cons_self _ _)

/-- C8 (amended): the claim says every non-empty answer string yields at
least one content block.  A non-empty all-whitespace answer strips to nothing
and yields no blocks, so the claim holds with "non-empty" strengthened to
"contains a non-whitespace character": every such answer, of any format,
yields at least one content block (and the normalizer is a total function, so
it cannot raise). -/
theorem c8_markup_normalization_total (subject : String) (answer : List Char)
    (h : ∃ c ∈ answer, pyWs c = false) :
    1 ≤ countBlocks (formatAnswerText subject answer) := by
  have hT : ∃ c ∈ smartTextPreprocessing answer, pyWs c = false := by
    obtain ⟨w, hw, hnw⟩ := h
    have hfw : pyWs (fixEncoding w) = false := fixEncoding_not_ws hnw
    refine ⟨fixEncoding w, ?_, hfw⟩
    unfold smartTextPreprocessing
    refine mem_pyStrip ?_ hfw
    refine collapseNl_mem _ _ _ ?_ hfw
    refine collapseSpacesAux_mem false _ _ ?_ ?_
    · exact List.mem_map_of_mem _ hw
    · intro he
      rw [he] at hfw
      exact absurd hfw (by decide)
  obtain ⟨w, hwT, hnwT⟩ := hT
  have hwn : w ≠ '\n' := fun he => absurd (he ▸ hnwT) (by decide)
  obtain ⟨sec, hsec, hwsec⟩ := mem_splitNN (smartTextPreprocessing answer) w hwT hwn
  have hwS : w ∈ pyStrip sec := mem_pyStrip hwsec hnwT
  have hSne : pyStrip sec ≠ [] := List.ne_nil_of_mem hwS
  have hbranch : ∃ e ∈ (match classifySection subject (pyStrip sec) with
      | SectionKind.code => formatSmartCodeBlock (pyStrip sec)
      | SectionKind.heading => [formatHeading (pyStrip sec)]
      | SectionKind.list => formatSmartList (pyStrip sec)
      | SectionKind.math => ([] : List PDFElem)
      | SectionKind.para => formatRegularParagraph (pyStrip sec)),
      isContentElem e = true := by
    cases hcl : classifySection subject (pyStrip sec) with
    | code => exact content_in_code _ w hwS hnwT
    | heading => exact content_in_heading _
    | list => exact content_in_list _ w hwS hnwT
    | math =>
      exfalso
      unfold classifySection at hcl
      split_ifs at hcl
    | para => exact content_in_para _ w hwS hnwT
  obtain ⟨e, he, hce⟩ := hbranch
  refine countBlocks_pos ?_ hce
  unfold formatAnswerText
  refine List.mem_flatMap.mpr ⟨sec, hsec, ?_⟩
  show e ∈ (if pyStrip sec = [] then ([] : List PDFElem)
    else (match classifySection subject (pyStrip sec) with
      | SectionKind.code => formatSmartCodeBlock (pyStrip sec)
      | SectionKind.heading => [formatHeading (pyStrip sec)]
      | SectionKind.list => formatSmartList (pyStrip sec)
      | SectionKind.math => ([] : List PDFElem)
      | SectionKind.para => formatRegularParagraph (pyStrip sec)) ++
      [.spacer 12])
  rw [if_neg hSne]
  exact List.mem_append_left _ he

/-- Witness for C8 on a concrete answer. -/
theorem c8_witness :
    (∃ c ∈ "Hello world".toList, pyWs c = false) ∧
    1 ≤ countBlocks (formatAnswerText "History" "Hello world".toList) :=
  ⟨by decide,
   c8_markup_normalization_total "History" "Hello world".toList (by decide)⟩

/-- C8 counterexample: the single-space answer " " is a non-empty string, yet
normalization produces no flowables at all, so "every non-empty answer yields
at least one content block" fails as stated. -/
theorem c8_counterexample :
    " ".toList ≠ [] ∧ formatAnswerText "Computer Science" " ".toList = [] :=
  ⟨by decide, by decide⟩
